import Mathlib

/-!
Verification of the contraction-hierarchy constructor (ch_constructor).

This file shallowly embeds the parts of the C++ source that the claims
refer to:

* `src/nodes_and_edges.h` — the `CHEdge` record (here `SC`) and the edge
  comparators `EdgeSortSrc` / `EdgeSortTgt`;
* `src/chgraph.h` — `SCGraph::restructure` (the in-place FIFO-merge
  contraction round), `bubbleSort`, `SCGraph::exportData`;
* `src/graph.h` — `Graph::initOffsets`, `Graph::sortInEdges`,
  `Graph::nodeEdges`;
* `src/file_format_offlinetp.cpp` — `FormatOfflineTP::Edge::calcTime` and
  `defaultSpeed`;
* `src/file_formats.cpp` — `toFileFormat`;
* `src/offtp/offtp_file.cpp` — `GraphFile::find_node` and the
  `node_geo_iterator`.

Machine integers of the C++ code are embedded as `Nat`; the sentinel
constants (`c::NO_NID` and friends) are `UINT32_MAX = 2^32 - 1` exactly as
in the source.  Where 64-bit arithmetic can overflow (`calcTime`) the
embedding applies `% 2^64` explicitly.  Fallible steps (out-of-bounds
vector accesses, failed `assert`/`debug_assert` checks of debug builds,
loop fuel) return `Except CErr`.

The edge containers `index_vector` of `src/indexed_container.h` are not
part of the available sources (only `graph.h`/`chgraph.h` use them).
Following the specification of the indexed edge container (§4.1: sorted
views over the edge store, iteration yields edges in index order, stable
ids), an index is embedded as the sequence of dereferenced edge records it
presents; `std::sort` on such a view is embedded as `List.insertionSort`
by the corresponding weak order (a deterministic instance of the
unspecified `std::sort` tie order).
-/

namespace CHC

/-- `c::NO_NID` (`std::numeric_limits<uint32>::max()`), `nodes_and_edges.h`. -/
def NO_NID : Nat := 2 ^ 32 - 1

/-- `c::NO_EID`, same sentinel value. -/
def NO_EID : Nat := 2 ^ 32 - 1

/-- `c::NO_DIST`, same sentinel value. -/
def NO_DIST : Nat := 2 ^ 32 - 1

/-- `c::NO_LVL`, same sentinel value. -/
def NO_LVL : Nat := 2 ^ 32 - 1

/-- `CHEdge<Edge>` of `nodes_and_edges.h`: an edge `(id, src, tgt, dist)`
with the shortcut fields `child_edge1`, `child_edge2`, `center_node`.
The field defaults are the defaults of the C++ record
(`id = c::NO_NID`, sentinel children and center). -/
structure SC where
  id : Nat := NO_NID
  src : Nat := NO_NID
  tgt : Nat := NO_NID
  dist : Nat := NO_DIST
  child1 : Nat := NO_EID
  child2 : Nat := NO_EID
  center : Nat := NO_NID
deriving Repr, DecidableEq

/-- Errors of the embedding: out-of-bounds container access (undefined
behaviour in the C++), a failed `assert`/`debug_assert`, or exhausted
loop fuel. -/
inductive CErr
  | oob
  | assertFail
  | fuelOut
deriving Repr, DecidableEq

/-- Checked `std::vector::operator[]` read. -/
def aget {α : Type} (a : Array α) (i : Nat) : Except CErr α :=
  if h : i < a.size then .ok (a.get ⟨i, h⟩) else .error .oob

/-- Checked `std::vector::operator[]` write. -/
def asetE {α : Type} (a : Array α) (i : Nat) (v : α) : Except CErr (Array α) :=
  if h : i < a.size then .ok (a.set ⟨i, h⟩ v) else .error .oob

/-- An `assert(...)` / `debug_assert(...)` of the source. -/
def checkB (b : Bool) : Except CErr Unit :=
  if b then .ok () else .error .assertFail

/-- `EdgeSortSrc` of `nodes_and_edges.h`: strict lexicographic `(src, tgt)`. -/
def outEdgeSortB (a b : SC) : Bool :=
  decide (a.src < b.src) || (decide (a.src = b.src) && decide (a.tgt < b.tgt))

/-- `EdgeSortTgt` of `nodes_and_edges.h`: strict lexicographic `(tgt, src)`. -/
def inEdgeSortB (a b : SC) : Bool :=
  decide (a.tgt < b.tgt) || (decide (a.tgt = b.tgt) && decide (a.src < b.src))

/-- `equalEndpoints` (as used by `chgraph.h`; cf. `Edge::operator==` of
`nodes_and_edges.h`): equality of the `(src, tgt)` pair. -/
def equalEndpointsB (a b : SC) : Bool :=
  decide (a.src = b.src) && decide (a.tgt = b.tgt)

/-- The `edgeSort` lambda of `SCGraph::restructure` (`chgraph.h:90`):
`(src, tgt)` lexicographic, and for equal endpoints non-shortcut edges
(`center_node == c::NO_NID`) come first, ordered among themselves by id;
shortcut edges with equal endpoints are all equivalent. -/
def edgeSortB (a b : SC) : Bool :=
  decide (a.src < b.src) ||
    (decide (a.src = b.src) &&
      (decide (a.tgt < b.tgt) ||
        (decide (a.tgt = b.tgt) &&
          ((decide (a.center = NO_NID) && !decide (b.center = NO_NID)) ||
            (decide (a.center = NO_NID) && decide (b.center = NO_NID) &&
              decide (a.id < b.id))))))

/-- The `edgeDistSort` lambda of `SCGraph::restructure` (`chgraph.h:99`):
strict lexicographic `(src, tgt, distance)`. -/
def edgeDistSortB (a b : SC) : Bool :=
  decide (a.src < b.src) ||
    (decide (a.src = b.src) &&
      (decide (a.tgt < b.tgt) ||
        (decide (a.tgt = b.tgt) && decide (a.dist < b.dist))))

/-- Weak-order companion of `edgeDistSortB`, used to embed
`std::sort(new_shortcuts, edgeDistSort)`. -/
def scDistLe (a b : SC) : Prop :=
  a.src < b.src ∨ (a.src = b.src ∧ (a.tgt < b.tgt ∨ (a.tgt = b.tgt ∧ a.dist ≤ b.dist)))

/-- Weak-order companion of `EdgeSortSrc`: `(src, tgt)` lexicographic `≤`. -/
def outKeyLe (a b : SC) : Prop :=
  a.src < b.src ∨ (a.src = b.src ∧ a.tgt ≤ b.tgt)

/-- Weak-order companion of `EdgeSortTgt`: `(tgt, src)` lexicographic `≤`. -/
def inKeyLe (a b : SC) : Prop :=
  a.tgt < b.tgt ∨ (a.tgt = b.tgt ∧ a.src ≤ b.src)

instance : DecidableRel scDistLe := by
  intro a b; unfold scDistLe; infer_instance

instance : DecidableRel outKeyLe := by
  intro a b; unfold outKeyLe; infer_instance

instance : DecidableRel inKeyLe := by
  intro a b; unfold inKeyLe; infer_instance

instance : IsTotal SC scDistLe :=
  ⟨by intro a b; unfold scDistLe; omega⟩

instance : IsTrans SC scDistLe :=
  ⟨by intro a b c; unfold scDistLe; omega⟩

instance : IsTotal SC outKeyLe :=
  ⟨by intro a b; unfold outKeyLe; omega⟩

instance : IsTrans SC outKeyLe :=
  ⟨by intro a b c; unfold outKeyLe; omega⟩

instance : IsTotal SC inKeyLe :=
  ⟨by intro a b; unfold inKeyLe; omega⟩

instance : IsTrans SC inKeyLe :=
  ⟨by intro a b c; unfold inKeyLe; omega⟩

/-- `std::is_sorted(l, cmp)`: no element strictly precedes its predecessor. -/
def isSortedB (cmp : SC → SC → Bool) : List SC → Bool
  | [] => true
  | [_] => true
  | a :: b :: t => !cmp b a && isSortedB cmp (b :: t)

/-- Inner loop of `bubbleSort` (`chgraph.h:60`): for `j` from the current
outer position up to `last - 1`, swap adjacent out-of-order elements,
recording whether anything changed. -/
def bubbleInner (cmp : SC → SC → Bool) (a : Array SC) (j stop : Nat) (changed : Bool)
    (fuel : Nat) : Except CErr (Array SC × Bool) :=
  match fuel with
  | 0 => .error .fuelOut
  | fuel + 1 =>
    if j = stop then .ok (a, changed)
    else do
      let x ← aget a j
      let y ← aget a (j + 1)
      if cmp y x then do
        let a ← asetE a j y
        let a ← asetE a (j + 1) x
        bubbleInner cmp a (j + 1) stop true fuel
      else
        bubbleInner cmp a (j + 1) stop changed fuel

/-- Outer loop of `bubbleSort` (`chgraph.h:58`): runs while the previous
pass changed something and `i` has not reached `last - 1`. -/
def bubbleOuter (cmp : SC → SC → Bool) (a : Array SC) (i stop : Nat) (changed : Bool)
    (fuel : Nat) : Except CErr (Array SC) :=
  match fuel with
  | 0 => .error .fuelOut
  | fuel + 1 =>
    if changed ∧ i ≠ stop then do
      let r ← bubbleInner cmp a i stop false (a.size + 1)
      bubbleOuter cmp r.1 (i + 1) stop r.2 fuel
    else .ok a

/-- `bubbleSort` of `chgraph.h:53`: early-aborting bubble sort whose later
passes start at the outer index (it fully sorts only nearly-sorted input). -/
def bubbleSortA (cmp : SC → SC → Bool) (a : Array SC) : Except CErr (Array SC) :=
  if a.size = 0 then .ok a
  else bubbleOuter cmp a 0 (a.size - 1) true (a.size + 1)

/-- State of the in-place FIFO merge inside `SCGraph::restructure`:
the working `_out_edges` view, the `_edges_dump`, the `edges_fifo` deque,
the `index_write` / `index_read` cursors and the id counter `_next_id`. -/
structure MSt where
  out : Array SC
  dump : Array SC
  fifo : List SC
  iw : Nat
  ir : Nat
  nextId : Nat
deriving Repr, DecidableEq

/-- `forward_index_read` (`chgraph.h:124`): advance `index_read` to the next
edge not touching a contracted node, moving skipped edges to `_edges_dump`. -/
def fwdIndexRead (toDel : Array Bool) (old : Nat) (s : MSt) (fuel : Nat) :
    Except CErr MSt :=
  match fuel, s with
  | 0, _ => .error .fuelOut
  | fuel + 1, ⟨out, dump, fifo, iw, ir, nid⟩ =>
    if ir < old then do
      let e ← aget out ir
      let ds ← aget toDel e.src
      let dt ← aget toDel e.tgt
      if !ds && !dt then .ok ⟨out, dump, fifo, iw, ir, nid⟩
      else fwdIndexRead toDel old ⟨out, dump.push e, fifo, iw, ir + 1, nid⟩ fuel
    else .ok ⟨out, dump, fifo, iw, ir, nid⟩

/-- `inc_index_read` (`chgraph.h:133`): step past the current edge, then
`forward_index_read`. -/
def incIndexRead (toDel : Array Bool) (old : Nat) (s : MSt) : Except CErr MSt :=
  match s with
  | ⟨out, dump, fifo, iw, ir, nid⟩ =>
    fwdIndexRead toDel old ⟨out, dump, fifo, iw, ir + 1, nid⟩ (old + 2)

/-- `insert_new_sc` (`chgraph.h:140`): write `sc` at `index_write`, first
saving a still-needed old edge into the FIFO, appending to the vector when
the old region is exhausted.  The written slot is `index_write - 1` of the
result. -/
def insertNewSc (toDel : Array Bool) (old : Nat) (sc : SC) (s : MSt) :
    Except CErr MSt := do
  let s1 ←
    match s with
    | ⟨out, dump, fifo, iw, ir, nid⟩ =>
      if iw = ir ∧ ir < old then do
        let e ← aget out ir
        incIndexRead toDel old ⟨out, dump, fifo ++ [e], iw, ir, nid⟩
      else .ok (⟨out, dump, fifo, iw, ir, nid⟩ : MSt)
  match s1 with
  | ⟨out, dump, fifo, iw, ir, nid⟩ =>
    if iw < old then do
      let o ← asetE out iw sc
      .ok ⟨o, dump, fifo, iw + 1, ir, nid⟩
    else do
      let _ ← checkB (decide (out.size = iw))
      .ok ⟨out.push sc, dump, fifo, iw + 1, ir, nid⟩

/-- `use_old_edge` (`chgraph.h:158`): keep the next old edge (from the FIFO
or from `index_read`), writing it at `index_write`.  The kept edge ends at
slot `index_write - 1` of the result. -/
def useOldEdge (toDel : Array Bool) (old : Nat) (s : MSt) : Except CErr MSt :=
  match s with
  | ⟨out, dump, fifo, iw, ir, nid⟩ =>
    match fifo with
    | [] =>
      if iw = ir then do
        let s1 ← incIndexRead toDel old ⟨out, dump, [], iw, ir, nid⟩
        match s1 with
        | ⟨out, dump, fifo, iw, ir, nid⟩ => do
          let _ ← aget out iw
          .ok (⟨out, dump, fifo, iw + 1, ir, nid⟩ : MSt)
      else do
        let e ← aget out ir
        let o ← asetE out iw e
        incIndexRead toDel old ⟨o, dump, [], iw + 1, ir, nid⟩
    | f :: _ => do
      let s1 ← insertNewSc toDel old f ⟨out, dump, fifo, iw, ir, nid⟩
      match s1 with
      | ⟨out, dump, fifo, iw, ir, nid⟩ =>
        .ok (⟨out, dump, fifo.drop 1, iw, ir, nid⟩ : MSt)

/-- The `for (;;)` loop handling one candidate shortcut
(`chgraph.h:197`-`238`): insert it in front of strictly greater edges,
step over strictly smaller old edges, and merge with an equal-endpoint
old shortcut (replacing its content but not its id when strictly
shorter).  The asserts of lines 214 and 228 are embedded as checks. -/
def processCandidate (toDel : Array Bool) (old : Nat) (fuel : Nat) (sc : SC) (s : MSt) :
    Except CErr MSt :=
  match fuel, s with
  | 0, _ => .error .fuelOut
  | fuel + 1, ⟨out, dump, fifo, iw, ir, nid⟩ =>
    let haveIndex := decide (ir < out.size)
    let fromFifo := !fifo.isEmpty
    if !fromFifo && !haveIndex then
      insertNewSc toDel old { sc with id := nid } ⟨out, dump, fifo, iw, ir, nid + 1⟩
    else do
      let current ←
        match fifo with
        | f :: _ => .ok f
        | [] => aget out ir
      if edgeSortB sc current then do
        let _ ← checkB (!equalEndpointsB sc current)
        insertNewSc toDel old { sc with id := nid } ⟨out, dump, fifo, iw, ir, nid + 1⟩
      else do
        let s1 ← useOldEdge toDel old ⟨out, dump, fifo, iw, ir, nid⟩
        match s1 with
        | ⟨out, dump, fifo, iw, ir, nid⟩ => do
          let written ← aget out (iw - 1)
          if edgeSortB written sc then
            processCandidate toDel old fuel sc ⟨out, dump, fifo, iw, ir, nid⟩
          else do
            let _ ← checkB (equalEndpointsB written sc && !decide (written.center = NO_NID))
            if sc.dist < written.dist then do
              let o ← asetE out (iw - 1) { sc with id := written.id }
              .ok (⟨o, dump, fifo, iw, ir, nid⟩ : MSt)
            else .ok (⟨out, dump, fifo, iw, ir, nid⟩ : MSt)

/-- The outer candidate loop of `restructure` (`chgraph.h:179`): skip
candidates whose center is not contracted, assert that the endpoints
survive, and process each remaining candidate.  The dedup test against
`prev_new_sc` (line 191) is not embedded: `prev_new_sc` is initialised to
`nullptr` at line 178 and never assigned, so the test never fires. -/
def processCands (toDel : Array Bool) (old : Nat) : List SC → MSt → Except CErr MSt
  | [], s => .ok s
  | c :: cs, ⟨out, dump, fifo, iw, ir, nid⟩ => do
    let cd ← aget toDel c.center
    if !cd then processCands toDel old cs ⟨out, dump, fifo, iw, ir, nid⟩
    else do
      let ds ← aget toDel c.src
      let dt ← aget toDel c.tgt
      let _ ← checkB (!ds && !dt)
      let s1 ← processCandidate toDel old (old + out.size + fifo.length + 2) c
        ⟨out, dump, fifo, iw, ir, nid⟩
      processCands toDel old cs s1

/-- First clean-up loop (`chgraph.h:241`): while `index_write < index_read`
and the FIFO is non-empty, pop the FIFO into the write position. -/
def flushFifo (s : MSt) (fuel : Nat) : Except CErr MSt :=
  match fuel, s with
  | 0, _ => .error .fuelOut
  | fuel + 1, ⟨out, dump, fifo, iw, ir, nid⟩ =>
    match fifo with
    | [] => .ok (⟨out, dump, [], iw, ir, nid⟩ : MSt)
    | f :: rest =>
      if iw < ir then do
        let o ← asetE out iw f
        flushFifo ⟨o, dump, rest, iw + 1, ir, nid⟩ fuel
      else .ok (⟨out, dump, f :: rest, iw, ir, nid⟩ : MSt)

/-- Second clean-up loop (`chgraph.h:245`): drain the remaining old edges,
through the FIFO when it is non-empty. -/
def drainOld (toDel : Array Bool) (old : Nat) (s : MSt) (fuel : Nat) :
    Except CErr MSt :=
  match fuel, s with
  | 0, _ => .error .fuelOut
  | fuel + 1, ⟨out, dump, fifo, iw, ir, nid⟩ =>
    if ir < old then do
      let s1 ←
        match fifo with
        | [] =>
          if iw = ir then .ok (⟨out, dump, [], iw + 1, ir, nid⟩ : MSt)
          else do
            let e ← aget out ir
            let o ← asetE out iw e
            .ok (⟨o, dump, [], iw + 1, ir, nid⟩ : MSt)
        | f :: rest => do
          let e ← aget out ir
          .ok (⟨out, dump, (f :: rest) ++ [e], iw, ir, nid⟩ : MSt)
      let s2 ← incIndexRead toDel old s1
      let s3 ←
        match s2 with
        | ⟨out, dump, fifo, iw, ir, nid⟩ =>
          flushFifo ⟨out, dump, fifo, iw, ir, nid⟩ (fifo.length + 1)
      drainOld toDel old s3 fuel
    else .ok (⟨out, dump, fifo, iw, ir, nid⟩ : MSt)

/-- The whole FIFO-merge body of `restructure` between the initial
`forward_index_read` (line 138) and the final
`_out_edges.insert(_out_edges.end(), edges_fifo...)` (line 266). -/
def mergePhase (toDel : Array Bool) (outSorted : Array SC) (cands : List SC)
    (dump0 : Array SC) (nextId : Nat) : Except CErr MSt := do
  let old := outSorted.size
  let s0 : MSt :=
    { out := outSorted, dump := dump0, fifo := [], iw := 0, ir := 0, nextId := nextId }
  let s1 ← fwdIndexRead toDel old s0 (old + 2)
  let s2 ← processCands toDel old cands s1
  let s3 ←
    match s2 with
    | ⟨out, dump, fifo, iw, ir, nid⟩ =>
      flushFifo ⟨out, dump, fifo, iw, ir, nid⟩ (fifo.length + 1)
  let s4 ← drainOld toDel old s3 (old + 1)
  match s4 with
  | ⟨out, dump, fifo, iw, ir, nid⟩ => do
    let _ ← checkB (decide (iw ≤ out.size))
    .ok (⟨out.extract 0 iw ++ fifo.toArray, dump, [], iw, ir, nid⟩ : MSt)

/-- `_out_offsets[edge.src]++` / `_in_offsets[edge.tgt]++` of
`Graph::initOffsets` (`graph.h:186`). -/
def bumpAt (a : Array Nat) (i : Nat) : Except CErr (Array Nat) := do
  let v ← aget a i
  asetE a i (v + 1)

/-- The counting loop of `Graph::initOffsets`: one bump per edge of the
given list at the key position. -/
def countKeys (key : SC → Nat) : List SC → Array Nat → Except CErr (Array Nat)
  | [], a => .ok a
  | e :: rest, a => do
    let a ← bumpAt a (key e)
    countKeys key rest a

/-- The prefix-sum loop of `Graph::initOffsets` (`graph.h:193`): for
`i < n` replace `off[i]` by the running sum and add the old value to it;
returns the rewritten array and the final sum. -/
def offsetScan (a : Array Nat) (i n sum : Nat) (fuel : Nat) :
    Except CErr (Array Nat × Nat) :=
  match fuel with
  | 0 => .error .fuelOut
  | fuel + 1 =>
    if i < n then do
      let c ← aget a i
      let a ← asetE a i sum
      offsetScan a (i + 1) n (sum + c) fuel
    else .ok (a, sum)

/-- `Graph::initOffsets` (`graph.h:174`): count both directions from the
outgoing view, prefix-sum over the node range, assert that the totals
match the view sizes (`graph.h:200`), and store the totals in the final
slot. -/
def initOffsets (nN : Nat) (outL inL : List SC) :
    Except CErr (Array Nat × Array Nat) := do
  let oc ← countKeys (fun e => e.src) outL (Array.mkArray (nN + 1) 0)
  let ic ← countKeys (fun e => e.tgt) outL (Array.mkArray (nN + 1) 0)
  let or ← offsetScan oc 0 nN 0 (nN + 1)
  let ir ← offsetScan ic 0 nN 0 (nN + 1)
  let _ ← checkB (decide (or.2 = outL.length))
  let _ ← checkB (decide (ir.2 = inL.length))
  let oo ← asetE or.1 nN or.2
  let io ← asetE ir.1 nN ir.2
  .ok (oo, io)

/-- The state of an `SCGraph`: nodes (opaque payloads, only their count
matters here), `_node_levels`, the outgoing and incoming index views, the
two offset arrays, `_edges_dump`, `_next_id` and `_next_lvl`. -/
structure CHState where
  nodes : List Nat
  levels : Array Nat
  outE : List SC
  inE : List SC
  outOff : Array Nat
  inOff : Array Nat
  dump : List SC
  nextId : Nat
  nextLvl : Nat
deriving Repr, DecidableEq

/-- `EdgeType` of `nodes_and_edges.h`. -/
inductive EdgeType
  | OUT
  | IN
deriving Repr, DecidableEq

/-- `Graph::nodeEdges` (`graph.h:232`): the half-open slice of the sorted
view between `offsets[n]` and `offsets[n+1]`. -/
def nodeEdges (s : CHState) (n : Nat) (d : EdgeType) : List SC :=
  match d with
  | .OUT => (s.outE.drop (s.outOff.getD n 0)).take (s.outOff.getD (n + 1) 0 - s.outOff.getD n 0)
  | .IN => (s.inE.drop (s.inOff.getD n 0)).take (s.inOff.getD (n + 1) 0 - s.inOff.getD n 0)

/-- The level-assignment loop of `restructure` (`chgraph.h:78`):
`_node_levels[deleted[i]] = _next_lvl` and `assert(to_delete[deleted[i]])`. -/
def assignLevels (levels : Array Nat) (toDel : Array Bool) (del : List Nat) (lvl : Nat) :
    Except CErr (Array Nat) :=
  match del with
  | [] => .ok levels
  | n :: rest => do
    let l ← asetE levels n lvl
    let d ← aget toDel n
    let _ ← checkB d
    assignLevels l toDel rest lvl

/-- `SCGraph::restructure` (`chgraph.h:70`): assign the round level,
sort the candidates by `edgeDistSort`, bubble-sort the outgoing view by
`edgeSort`, run the in-place FIFO merge, rebuild the incoming view by
`InEdgeSort` and recompute both offset arrays.  The `debug_assert`s of
lines 120-122 and 271 are embedded as checks. -/
def restructure (s : CHState) (deleted : List Nat) (toDel : Array Bool)
    (cands : List SC) : Except CErr CHState :=
  match s with
  | ⟨nodes, levels, outE, _, _, _, dump, nextId, nextLvl⟩ => do
    let lvls ← assignLevels levels toDel deleted nextLvl
    let cands1 := List.insertionSort scDistLe cands
    let outA ← bubbleSortA edgeSortB outE.toArray
    let _ ← checkB (isSortedB edgeSortB outA.toList)
    let _ ← checkB (isSortedB outEdgeSortB outA.toList)
    let _ ← checkB (isSortedB outEdgeSortB cands1)
    let m ← mergePhase toDel outA cands1 dump.toArray nextId
    match m with
    | ⟨mOut, mDump, _, _, _, mNextId⟩ => do
      let outL := mOut.toList
      let _ ← checkB (isSortedB outEdgeSortB outL)
      let inL := List.insertionSort inKeyLe outL
      let off ← initOffsets nodes.length outL inL
      .ok { nodes := nodes, levels := lvls, outE := outL, inE := inL,
            outOff := off.1, inOff := off.2, dump := mDump.toList,
            nextId := mNextId, nextLvl := nextLvl + 1 }

/-- The edge list `exportData` projects from: the active outgoing view, or
`_edges_dump` when both views are empty (`chgraph.h:317`). -/
def exportSource (s : CHState) : List SC :=
  if s.outE.isEmpty ∧ s.inE.isEmpty then s.dump else s.outE

/-- The scatter loop of `exportData` (`chgraph.h:327`):
`edges[edge.id] = edge` over the source view into a vector resized to the
source length (default-constructed `Shortcut` records). -/
def exportScatter : List SC → Array SC → Except CErr (Array SC)
  | [], a => .ok a
  | e :: rest, a => do
    let a ← asetE a e.id e
    exportScatter rest a

/-- `SCGraph::exportData` (`chgraph.h:310`): pick the source view
(asserting the dump is empty when the active view is used), permute the
edges into id order, and return `(nodes, node_levels, edges)`. -/
def exportData (s : CHState) : Except CErr (List Nat × Array Nat × List SC) := do
  let src ←
    if s.outE.isEmpty ∧ s.inE.isEmpty then .ok s.dump
    else do
      let _ ← checkB s.dump.isEmpty
      .ok s.outE
  let a ← exportScatter src (Array.mkArray src.length {})
  .ok (s.nodes, s.levels, a.toList)

/-- One contraction round as fed to `restructure` by the driver. -/
structure Round where
  deleted : List Nat
  toDel : Array Bool
  cands : List SC
deriving Repr, DecidableEq

/-- A sequence of contraction rounds. -/
def runRounds : CHState → List Round → Except CErr CHState
  | s, [] => .ok s
  | s, r :: rs => do
    let s ← restructure s r.deleted r.toDel r.cands
    runRounds s rs

/-- `defaultSpeed` of `file_format_offlinetp.cpp:12`. -/
def defaultSpeed (roadType : Nat) : Nat :=
  match roadType with
  | 1 => 130
  | 2 => 100
  | 3 => 70
  | 4 => 70
  | 5 => 65
  | 6 => 65
  | 7 => 60
  | 8 => 60
  | 9 => 80
  | 10 => 80
  | 11 => 30
  | 12 => 50
  | 13 => 30
  | 14 => 30
  | 15 => 30
  | 16 => 30
  | _ => 50

/-- `FormatOfflineTP::Edge::calcTime` (`file_format_offlinetp.cpp:37`):
replace a non-positive speed by the road-type default, compute
`dist * 1300 / speed` in unsigned 64-bit arithmetic, clamp at
`UINT32_MAX`.  `dist` is a C++ `uint`, so the caller passes a value
below `2^32`. -/
def calcTime (dist : Nat) (roadType : Nat) (speed : Int) : Nat :=
  let sp : Nat := if speed ≤ 0 then defaultSpeed roadType else speed.toNat
  let result : Nat := dist * 1300 % 2 ^ 64 / sp
  min result (2 ^ 32 - 1)

/-- `FileFormat` of `file_formats.h:124`. -/
inductive FileFormat
  | STD
  | SIMPLE
  | FMI
  | FMI_CH
deriving Repr, DecidableEq

/-- `toFileFormat` of `file_formats.cpp:4`.  The second component records
whether the `Unknown fileformat!` diagnostic was written to `stderr`; in
every case the function returns normally with a `FileFormat` value — the
unknown-format branch falls through to `return FMI` (line 22). -/
def toFileFormat (format : String) : FileFormat × Bool :=
  if format = "STD" then (.STD, false)
  else if format = "SIMPLE" then (.SIMPLE, false)
  else if format = "FMI" then (.FMI, false)
  else if format = "FMI_CH" then (.FMI_CH, false)
  else (.FMI, true)

end CHC

namespace OffTP

/-- `UINT32_MAX`, the no-node sentinel of `GraphFile::find_node`. -/
def u32max : Nat := 2 ^ 32 - 1

/-- `std::numeric_limits<uint64_t>::max()`, the initial `min_dist`. -/
def u64max : Nat := 2 ^ 64 - 1

/-- One block of the node-geo section as stored in the file: the
`next` link (`u32max` when none), the `count` word, and the stored
`(lon, lat)` slot pairs in order. -/
structure OffBlock where
  nxt : Nat
  cnt : Nat
  geo : List (Nat × Nat)
deriving Repr, DecidableEq

/-- The header fields read by `GraphFile::load_header`
(`offtp_file.cpp:111`). -/
structure OffHeader where
  baseCellX : Nat
  baseCellY : Nat
  baseCellW : Nat
  baseCellH : Nat
  baseGridW : Nat
  baseGridH : Nat
  blockSize : Nat
  blockCount : Nat
  coreBlockStart : Nat
  edgeCount : Nat
deriving Repr, DecidableEq

/-- A loaded graph file: its header and the node-geo blocks the stream
provides (reading a block id with no record is a stream failure). -/
structure OffFile where
  header : OffHeader
  blocks : List OffBlock
deriving Repr, DecidableEq

/-- State of `GraphFile::node_geo_iterator`: the per-search visited-block
set, `m_next_block`, `m_block_remaining`, the pending geo pairs of the
current block (standing for `m_current_offset`), `m_next_node_id` and the
current `m_node`. -/
structure GeoIt where
  visited : List Nat
  nextBlock : Nat
  remaining : Nat
  pend : List (Nat × Nat)
  nextNodeId : Nat
  node : Nat × Nat × Nat
deriving Repr, DecidableEq

/-- A freshly constructed `node_geo_iterator`. -/
def mkGeoIt : GeoIt :=
  { visited := [], nextBlock := 0, remaining := 0, pend := [], nextNodeId := 0,
    node := (0, 0, 0) }

/-- The public `load_block(block_nr)` (`offtp_file.cpp:43`). -/
def itLoadBlock (b : Nat) (it : GeoIt) : GeoIt :=
  { it with remaining := 0, nextBlock := b }

/-- The private `load_block()` loop (`offtp_file.cpp:71`): while no words
of the current block remain, stop at the block-count bound, insert the
next block id into the visited set — returning `false` when the insert
actually inserted (`.second`, i.e. on the FIRST visit; the comment
`already know this block` notwithstanding) — and otherwise read the block
header and continue.  `none` is an exhausted fuel bound (the C++ loop can
revisit known blocks forever). -/
def privLoadBlock (f : OffFile) : Nat → GeoIt → Option (Bool × GeoIt)
  | 0, _ => none
  | fuel + 1, it =>
    if it.remaining ≠ 0 then some (true, it)
    else if f.header.blockCount ≤ it.nextBlock then some (false, it)
    else
      let isNew := ¬ it.nextBlock ∈ it.visited
      let it1 := { it with visited := it.nextBlock :: it.visited }
      if isNew then some (false, it1)
      else
        match f.blocks.get? it1.nextBlock with
        | none => some (false, it1)
        | some b =>
          privLoadBlock f fuel
            { it1 with
              nextBlock := b.nxt
              remaining := b.cnt
              pend := b.geo
              nextNodeId := it1.nextBlock * (f.header.blockSize + 1) }

/-- `node_geo_iterator::next` (`offtp_file.cpp:48`): load a block if
needed, then read one `(lon, lat)` pair into `m_node`. -/
def itNext (f : OffFile) (fuel : Nat) (it : GeoIt) : Option (Bool × GeoIt) :=
  match privLoadBlock f fuel it with
  | none => none
  | some (false, it) => some (false, it)
  | some (true, it) =>
    match it.pend with
    | [] => some (false, it)
    | p :: rest =>
      some (true,
        { it with
          node := (it.nextNodeId, p.1, p.2)
          nextNodeId := it.nextNodeId + 1
          remaining := it.remaining - 1
          pend := rest })

/-- `square_distance` (`offtp_file.cpp:25`), with the 64-bit cast of the
C++ made explicit. -/
def squareDistance (a b : Nat × Nat) : Nat :=
  ((((a.1 : Int) - b.1) ^ 2 + ((a.2 : Int) - b.2) ^ 2).toNat) % 2 ^ 64

/-- `GraphFile::grid_coords_for` (`offtp_file.cpp:207`); `uint32`
subtraction `base_cell_width - 1` is wrapped explicitly. -/
def gridCoordsFor (h : OffHeader) (c : Nat × Nat) : Nat × Nat :=
  (min ((h.baseCellW + u32max) % 2 ^ 32)
     (if h.baseCellX ≤ c.1 then (c.1 - h.baseCellX) / h.baseCellW else 0),
   min ((h.baseCellH + u32max) % 2 ^ 32)
     (if h.baseCellY ≤ c.2 then (c.2 - h.baseCellY) / h.baseCellH else 0))

/-- Accumulated best of the search: `found_any`, `min_dist`, `found`. -/
structure FindSt where
  foundAny : Bool
  minDist : Nat
  found : Nat × Nat × Nat
deriving Repr, DecidableEq

/-- One `while (it.next()) { ... }` scan of `find_node`, keeping the
closest node seen so far. -/
def drainIt (f : OffFile) (search : Nat × Nat) : Nat → GeoIt → FindSt →
    Option (GeoIt × FindSt)
  | 0, _, _ => none
  | fuel + 1, it, st =>
    match itNext f (fuel + 1) it with
    | none => none
    | some (false, it) => some (it, st)
    | some (true, it) =>
      let d := squareDistance search (it.node.2.1, it.node.2.2)
      let st :=
        if d < st.minDist then
          { foundAny := true, minDist := d, found := it.node }
        else st
      drainIt f search fuel it st

/-- The `for (;;)` loop of `GraphFile::find_node` (`offtp_file.cpp:157`):
scan the start cell, fall back to the first core node when nothing was
found, then scan the three neighbour cells one step towards the query,
and stop when the best node did not move. -/
def findLoop (f : OffFile) (search : Nat × Nat) : Nat → GeoIt → FindSt → Option Nat
  | 0, _, _ => none
  | fuel + 1, it, st =>
    let lastNodeId := st.found.1
    let startC :=
      gridCoordsFor f.header (if st.foundAny then (st.found.2.1, st.found.2.2) else search)
    let it := itLoadBlock (startC.2 * f.header.baseGridW + startC.1) it
    match drainIt f search (fuel + 1) it st with
    | none => none
    | some (it, st) =>
      if st.found.1 ≠ lastNodeId then findLoop f search fuel it st
      else if !st.foundAny then
        match itNext f (fuel + 1) (itLoadBlock f.header.coreBlockStart mkGeoIt) with
        | none => none
        | some (false, _) => some u32max
        | some (true, coreIt) =>
          findLoop f search fuel it
            { foundAny := true,
              minDist := squareDistance search (coreIt.node.2.1, coreIt.node.2.2),
              found := coreIt.node }
      else
        let nx :=
          if search.1 < st.found.2.1 ∧ 0 < startC.1 then startC.1 - 1
          else if st.found.2.1 < search.1 ∧ startC.1 + 1 < f.header.baseGridW then
            startC.1 + 1
          else startC.1
        let ny :=
          if search.2 < st.found.2.2 ∧ 0 < startC.2 then startC.2 - 1
          else if st.found.2.2 < search.2 ∧ startC.2 + 1 < f.header.baseGridH then
            startC.2 + 1
          else startC.2
        match drainIt f search (fuel + 1)
            (itLoadBlock (ny * f.header.baseGridW + startC.1) it) st with
        | none => none
        | some (it, st) =>
          match drainIt f search (fuel + 1)
              (itLoadBlock (startC.2 * f.header.baseGridW + nx) it) st with
          | none => none
          | some (it, st) =>
            match drainIt f search (fuel + 1)
                (itLoadBlock (ny * f.header.baseGridW + nx) it) st with
            | none => none
            | some (it, st) =>
              if st.found.1 = lastNodeId then some st.found.1
              else findLoop f search fuel it st

/-- `GraphFile::find_node` (`offtp_file.cpp:148`) on a query already
converted to `uint32` micro-degrees. -/
def findNode (f : OffFile) (search : Nat × Nat) (fuel : Nat) : Option Nat :=
  findLoop f search fuel mkGeoIt
    { foundAny := false, minDist := u64max, found := (0, 0, 0) }

/-- The iterator produced by the first-visit refusal of the private
`load_block`. -/
def refusedIt (f : OffFile) (it : GeoIt) : GeoIt :=
  if f.header.blockCount ≤ it.nextBlock then it
  else { it with visited := it.nextBlock :: it.visited }

/-- A one-block file holding a single node at micro-degree coordinates
`(5, 5)`: the round trip of scenario R2 would query `find_node` at
exactly these coordinates and expect file node id `0`. -/
def exFile : OffFile :=
  { header :=
      { baseCellX := 0, baseCellY := 0, baseCellW := 10, baseCellH := 10,
        baseGridW := 256, baseGridH := 256, blockSize := 255, blockCount := 1,
        coreBlockStart := 0, edgeCount := 0 }
    blocks := [{ nxt := u32max, cnt := 1, geo := [(5, 5)] }] }

end OffTP

namespace CHC

/-- Scenario S5 pre-state: nodes `A = 0`, `C = 1`, `B1 = 2`, `B2 = 3`,
original edges `A→B1 (3)`, `B1→C (4)`, `A→B2 (2)`, `B2→C (3)`. -/
def s5State : CHState :=
  { nodes := [0, 1, 2, 3]
    levels := #[NO_LVL, NO_LVL, NO_LVL, NO_LVL]
    outE := [{ id := 0, src := 0, tgt := 2, dist := 3 },
             { id := 1, src := 0, tgt := 3, dist := 2 },
             { id := 2, src := 2, tgt := 1, dist := 4 },
             { id := 3, src := 3, tgt := 1, dist := 3 }]
    inE := []
    outOff := #[]
    inOff := #[]
    dump := []
    nextId := 4
    nextLvl := 0 }

/-- Scenario S5 candidates: `(A, C, 7, center = B1)` and
`(A, C, 5, center = B2)`. -/
def s5cands : List SC :=
  [{ id := NO_EID, src := 0, tgt := 1, dist := 7, child1 := 0, child2 := 2, center := 2 },
   { id := NO_EID, src := 0, tgt := 1, dist := 5, child1 := 1, child2 := 3, center := 3 }]

/-- Scenario S2 pre-state with symbolic distances: nodes `A = 0`, `B = 1`,
`C = 2`, `X = 3` (contracted in an earlier round), original edges
`A→B (d1)`, `B→C (d2)`, and the existing shortcut
`(A, C, de, center = X, id = 7)`. -/
def s2State (d1 d2 de : Nat) : CHState :=
  { nodes := [0, 1, 2, 3]
    levels := #[NO_LVL, NO_LVL, NO_LVL, 0]
    outE := [{ id := 0, src := 0, tgt := 1, dist := d1 },
             { id := 7, src := 0, tgt := 2, dist := de, child1 := 0, child2 := 1, center := 3 },
             { id := 1, src := 1, tgt := 2, dist := d2 }]
    inE := []
    outOff := #[]
    inOff := #[]
    dump := []
    nextId := 8
    nextLvl := 1 }

/-- Scenario S2 candidate `(A, C, dc, center = B)`. -/
def s2cand (dc : Nat) : SC :=
  { id := NO_EID, src := 0, tgt := 2, dist := dc, child1 := 0, child2 := 1, center := 1 }

/-- The S2 `to_delete` bitmap: only `B = 1` is contracted. -/
def s2td : Array Bool := #[false, true, false, false]

/-- The S2 original edge `A→B`. -/
def s2e01 (d1 : Nat) : SC := { id := 0, src := 0, tgt := 1, dist := d1 }

/-- The S2 pre-existing shortcut `(A, C, de, center = X, id = 7)`. -/
def s2e7 (de : Nat) : SC :=
  { id := 7, src := 0, tgt := 2, dist := de, child1 := 0, child2 := 1, center := 3 }

/-- The S2 original edge `B→C`. -/
def s2e12 (d2 : Nat) : SC := { id := 1, src := 1, tgt := 2, dist := d2 }

/-- The S2 shortcut record after in-place replacement: the candidate's
fields under the preserved id `7`. -/
def s2new (dc : Nat) : SC :=
  { id := 7, src := 0, tgt := 2, dist := dc, child1 := 0, child2 := 1, center := 1 }

/-- The S2 merge state right after the initial `forward_index_read`:
`A→B` is dumped, `index_read` rests on the existing shortcut. -/
def s2mid1 (d1 d2 de : Nat) : MSt :=
  ⟨List.toArray [s2e01 d1, s2e7 de, s2e12 d2], List.toArray [s2e01 d1], [], 0, 1, 8⟩

/-- The S2 merge state after the candidate was merged into edge `7`. -/
def s2mid3 (d1 d2 de dc : Nat) : MSt :=
  ⟨List.toArray [s2new dc, s2e7 de, s2e12 d2], List.toArray [s2e01 d1, s2e12 d2], [], 1, 3, 8⟩

/-- Scenario S4 pre-state: nodes `A = 0`, `B = 1`, `C = 2`, original edges
`A→C (5)`, `A→B (1)`, `B→C (1)`. -/
def s4State : CHState :=
  { nodes := [0, 1, 2]
    levels := #[NO_LVL, NO_LVL, NO_LVL]
    outE := [{ id := 0, src := 0, tgt := 2, dist := 5 },
             { id := 1, src := 0, tgt := 1, dist := 1 },
             { id := 2, src := 1, tgt := 2, dist := 1 }]
    inE := []
    outOff := #[]
    inOff := #[]
    dump := []
    nextId := 3
    nextLvl := 0 }

/-- Scenario S4 candidate `(A, C, 2, center = B)`. -/
def s4cands : List SC :=
  [{ id := NO_EID, src := 0, tgt := 2, dist := 2, child1 := 1, child2 := 2, center := 1 }]

/-- Pre-state for the step-4 discard rules (claim C3): contract `B = 1`.
Candidate `(0, 2, 5, center = 1)` meets only the strictly shorter original
`0→2 (2)` in its endpoint range; candidate `(3, 4, 6, center = 1)` meets
the existing shortcut `(3, 4, 4, center = 5, id = 5)`. -/
def c3State : CHState :=
  { nodes := [0, 1, 2, 3, 4, 5]
    levels := #[NO_LVL, NO_LVL, NO_LVL, NO_LVL, NO_LVL, 0]
    outE := [{ id := 0, src := 0, tgt := 2, dist := 2 },
             { id := 1, src := 0, tgt := 1, dist := 2 },
             { id := 2, src := 1, tgt := 2, dist := 3 },
             { id := 3, src := 3, tgt := 1, dist := 2 },
             { id := 4, src := 1, tgt := 4, dist := 3 },
             { id := 5, src := 3, tgt := 4, dist := 4, child1 := 0, child2 := 1, center := 5 }]
    inE := []
    outOff := #[]
    inOff := #[]
    dump := []
    nextId := 6
    nextLvl := 1 }

/-- The two candidates of the C3 scenario. -/
def c3cands : List SC :=
  [{ id := NO_EID, src := 0, tgt := 2, dist := 5, child1 := 1, child2 := 2, center := 1 },
   { id := NO_EID, src := 3, tgt := 4, dist := 6, child1 := 3, child2 := 4, center := 1 }]

/-- A two-node, one-edge graph state used as concrete witness input. -/
def w6State : CHState :=
  { nodes := [0, 1]
    levels := #[NO_LVL, NO_LVL]
    outE := [{ id := 0, src := 0, tgt := 1, dist := 1 }]
    inE := [{ id := 0, src := 0, tgt := 1, dist := 1 }]
    outOff := #[0, 1, 1]
    inOff := #[0, 0, 1]
    dump := []
    nextId := 1
    nextLvl := 0 }

/-- Two contraction rounds on `w6State`: first `{1}`, then `{0}`,
no candidate shortcuts. -/
def w6Rounds : List Round :=
  [{ deleted := [1], toDel := #[false, true], cands := [] },
   { deleted := [0], toDel := #[true, false], cands := [] }]

/-- The state after the single round contracting `{1}` on `w6State`. -/
def w6Post : CHState :=
  { nodes := [0, 1], levels := #[NO_LVL, 0], outE := [], inE := [],
    outOff := #[0, 0, 0], inOff := #[0, 0, 0],
    dump := [{ id := 0, src := 0, tgt := 1, dist := 1 }], nextId := 1, nextLvl := 1 }

/-- The state after both rounds of `w6Rounds`. -/
def w6Final : CHState :=
  { nodes := [0, 1], levels := #[1, 0], outE := [], inE := [],
    outOff := #[0, 0, 0], inOff := #[0, 0, 0],
    dump := [{ id := 0, src := 0, tgt := 1, dist := 1 }], nextId := 1, nextLvl := 2 }

/-- A post-contraction state whose dump carries ids `{0, 1}` out of order,
used as concrete witness input for `exportData`. -/
def c10State : CHState :=
  { nodes := [0, 1]
    levels := #[1, 0]
    outE := []
    inE := []
    outOff := #[0, 0, 0]
    inOff := #[0, 0, 0]
    dump := [{ id := 1, src := 0, tgt := 1, dist := 2 },
             { id := 0, src := 1, tgt := 0, dist := 3 }]
    nextId := 2
    nextLvl := 2 }

/-- The road-type default-speed table exactly as the specification states
it: `{1:130, 2:100, 3:70, 4:70, 5:65, 6:65, 7:60, 8:60, 9:80, 10:80,
11:30, 12:50, 13:30, 14:30, 15:30, 16:30, otherwise 50}`. -/
def specSpeedTable (roadType : Nat) : Nat :=
  match roadType with
  | 1 => 130
  | 2 => 100
  | 3 => 70
  | 4 => 70
  | 5 => 65
  | 6 => 65
  | 7 => 60
  | 8 => 60
  | 9 => 80
  | 10 => 80
  | 11 => 30
  | 12 => 50
  | 13 => 30
  | 14 => 30
  | 15 => 30
  | 16 => 30
  | _ => 50

/-- `speed_eff` as the specification defines it: the posted speed when
positive, otherwise the road-type default. -/
def speedEffSpec (roadType : Nat) (speed : Int) : Nat :=
  if 0 < speed then speed.toNat else specSpeedTable roadType

/-- `bind` on a successful `Except` computation. -/
theorem ebind_ok {α β : Type} (a : α) (f : α → Except CErr β) :
    (Except.ok a >>= f) = f a := rfl

/-- `bind` on a failed `Except` computation. -/
theorem ebind_err {α β : Type} (e : CErr) (f : α → Except CErr β) :
    ((Except.error e : Except CErr α) >>= f) = Except.error e := rfl

/-- Inversion of a successful `Except` bind. -/
theorem ebind_eq_ok {α β : Type} {x : Except CErr α} {f : α → Except CErr β} {b : β} :
    (x >>= f) = .ok b ↔ ∃ a, x = .ok a ∧ f a = .ok b := by
  cases x with
  | ok a => simp [ebind_ok]
  | error e => simp [ebind_err]

/-- Inversion of a successful `checkB`. -/
theorem checkB_eq_ok {b : Bool} {u : Unit} : checkB b = .ok u ↔ b = true := by
  cases b <;> simp [checkB]

/-- Inversion of a successful checked read. -/
theorem aget_eq_ok {α : Type} {a : Array α} {i : Nat} {v : α} :
    aget a i = .ok v ↔ ∃ h : i < a.size, a.get ⟨i, h⟩ = v := by
  unfold aget
  by_cases h : i < a.size <;> simp [h]

/-- Inversion of a successful checked write. -/
theorem asetE_eq_ok {α : Type} {a : Array α} {i : Nat} {v : α} {r : Array α} :
    asetE a i v = .ok r ↔ ∃ h : i < a.size, a.set ⟨i, h⟩ v = r := by
  unfold asetE
  by_cases h : i < a.size <;> simp [h]

/-- C1: the round of scenario S5 (contract `{B1, B2}` with candidates
`(A, C, 7, center = B1)` and `(A, C, 5, center = B2)`) does NOT keep
exactly one candidate per endpoint pair: both candidates are appended
with fresh ids `4` and `5`, so two shortcut edges with the same
`(src, tgt) = (0, 1)` coexist in the active indices after `restructure`.
The dedup variable `prev_new_sc` (`chgraph.h:178`) is never assigned, so
the equal-endpoint skip at line 191 is dead code, contrary to the comment
at lines 84-88. -/
theorem restructure_s5_keeps_both_candidates :
    (restructure s5State [2, 3] #[false, false, true, true] s5cands).map
        (fun s => (s.outE, s.nextId)) =
      .ok ([{ id := 4, src := 0, tgt := 1, dist := 5, child1 := 1, child2 := 3, center := 3 },
            { id := 5, src := 0, tgt := 1, dist := 7, child1 := 0, child2 := 2, center := 2 }],
           6) := by
  rfl

/-- In the S2 round, the candidate with strictly smaller distance
replaces the content — but not the id — of the existing shortcut found in
its endpoint range (`chgraph.h:231`). -/
theorem processCandidate_s2_merges (d1 d2 de dc : Nat) (h : dc < de) :
    processCandidate s2td 3 8 (s2cand dc) (s2mid1 d1 d2 de) = .ok (s2mid3 d1 d2 de dc) := by
  have e1 : processCandidate s2td 3 8 (s2cand dc) (s2mid1 d1 d2 de) =
      if dc < de then
        (Except.bind
          (asetE (List.toArray [s2e7 de, s2e7 de, s2e12 d2]) 0 (s2new dc))
          (fun o => Except.ok (⟨o, List.toArray [s2e01 d1, s2e12 d2], [], 1, 3, 8⟩ : MSt)))
      else
        Except.ok
          (⟨List.toArray [s2e7 de, s2e7 de, s2e12 d2], List.toArray [s2e01 d1, s2e12 d2],
            [], 1, 3, 8⟩ : MSt) := by
    rfl
  rw [e1, if_pos h]
  rfl

/-- The S2 candidate loop over the single candidate. -/
theorem processCands_s2 (d1 d2 de dc : Nat) (h : dc < de) :
    processCands s2td 3 [s2cand dc] (s2mid1 d1 d2 de) = .ok (s2mid3 d1 d2 de dc) := by
  have e2 : processCands s2td 3 [s2cand dc] (s2mid1 d1 d2 de) =
      Except.bind (processCandidate s2td 3 8 (s2cand dc) (s2mid1 d1 d2 de))
        (fun s1 => processCands s2td 3 [] s1) := rfl
  rw [e2, processCandidate_s2_merges d1 d2 de dc h]
  rfl

/-- The S2 merge phase: the active view ends with exactly the replaced
shortcut record. -/
theorem mergePhase_s2 (d1 d2 de dc : Nat) (h : dc < de) :
    mergePhase s2td (List.toArray [s2e01 d1, s2e7 de, s2e12 d2]) [s2cand dc] #[] 8 =
      .ok (⟨List.toArray [s2new dc], List.toArray [s2e01 d1, s2e12 d2], [], 1, 3, 8⟩ : MSt) := by
  have e3 : mergePhase s2td (List.toArray [s2e01 d1, s2e7 de, s2e12 d2]) [s2cand dc] #[] 8 =
      Except.bind (processCands s2td 3 [s2cand dc] (s2mid1 d1 d2 de))
        (fun s2 =>
          Except.bind
            (match s2 with
             | ⟨out, dump, fifo, iw, ir, nid⟩ =>
               flushFifo ⟨out, dump, fifo, iw, ir, nid⟩ (fifo.length + 1))
            (fun s3 =>
              Except.bind (drainOld s2td 3 s3 4)
                (fun s4 =>
                  match s4 with
                  | ⟨out, dump, fifo, iw, ir, nid⟩ =>
                    Except.bind (checkB (decide (iw ≤ out.size)))
                      (fun _ =>
                        Except.ok
                          (⟨out.extract 0 iw ++ fifo.toArray, dump, [], iw, ir, nid⟩ :
                            MSt))))) := rfl
  rw [e3, processCands_s2 d1 d2 de dc h]
  rfl

set_option maxHeartbeats 1600000 in
/-- C2: scenario S2, with all four distances symbolic — whenever the
candidate `(A, C, dc, center = B)` is strictly shorter than the existing
shortcut `(A, C, de, center = X, id = 7)` in its endpoint range,
`restructure` replaces that edge record in place: the record keeps id `7`
while all other fields become those of the candidate, and `_next_id`
stays `8` — no new edge id is allocated. -/
theorem restructure_s2_replaces_in_place (d1 d2 de dc : Nat) (h : dc < de) :
    (restructure (s2State d1 d2 de) [1] s2td [s2cand dc]).map
        (fun s => (s.outE, s.nextId)) =
      .ok ([s2new dc], 8) := by
  have e4 : restructure (s2State d1 d2 de) [1] s2td [s2cand dc] =
      Except.bind
        (mergePhase s2td (List.toArray [s2e01 d1, s2e7 de, s2e12 d2]) [s2cand dc] #[] 8)
        (fun m =>
          match m with
          | ⟨mOut, mDump, _, _, _, mNextId⟩ =>
            Except.bind (checkB (isSortedB outEdgeSortB mOut.toList))
              (fun _ =>
                Except.bind
                  (initOffsets 4 mOut.toList (List.insertionSort inKeyLe mOut.toList))
                  (fun off =>
                    Except.ok
                      { nodes := [0, 1, 2, 3], levels := #[NO_LVL, 1, NO_LVL, 0],
                        outE := mOut.toList,
                        inE := List.insertionSort inKeyLe mOut.toList,
                        outOff := off.1, inOff := off.2, dump := mDump.toList,
                        nextId := mNextId, nextLvl := 2 }))) := rfl
  rw [e4, mergePhase_s2 d1 d2 de dc h]
  rfl

/-- C2 witness: the S2 numbers of the specification — graph
`A-(1)->B-(10)->C`, existing shortcut distance `9`, candidate distance
`3`. -/
theorem restructure_s2_witness :
    (restructure (s2State 1 10 9) [1] s2td [s2cand 3]).map
        (fun s => (s.outE, s.nextId)) =
      .ok ([s2new 3], 8) :=
  restructure_s2_replaces_in_place 1 10 9 3 (by decide)

/-- C4: scenario S4 — after contracting `{B}` with candidate
`(A, C, 2, center = B)` against the original edge `A→C (5)`, a new
shortcut is appended with the fresh id `3` and distance `2`, the original
edge is unchanged, and both coexist in the sorted active index. -/
theorem restructure_s4_appends_alongside_original :
    (restructure s4State [1] #[false, true, false] s4cands).map
        (fun s => (s.outE, s.nextId)) =
      .ok ([{ id := 0, src := 0, tgt := 2, dist := 5 },
            { id := 3, src := 0, tgt := 2, dist := 2, child1 := 1, child2 := 2, center := 1 }],
           4) := by
  rfl

set_option maxHeartbeats 3200000 in
/-- C3 counterexample: the candidate `(0, 2, 5, center = 1)` shares its
endpoint range with the original edge `0→2` of distance `2 ≤ 5`, yet it is
NOT discarded — `restructure` appends it as a new edge with fresh id `6`,
refuting the claim that such a candidate leaves no new edge appended. -/
theorem restructure_c3_shorter_original_does_not_discard :
    (restructure c3State [1] #[false, true, false, false, false, false] c3cands).map
        (fun s =>
          decide (({ id := 6, src := 0, tgt := 2, dist := 5, child1 := 1, child2 := 2,
                     center := 1 } : SC) ∈ s.outE)) =
      .ok true := by
  rfl

set_option maxHeartbeats 3200000 in
/-- C3 amended: a surviving candidate is discarded (no record modified, no
edge appended) exactly when its endpoint range holds an existing shortcut
(`center_node` non-sentinel) of distance `≤` the candidate distance;
original edges never cause a discard — against a strictly shorter original
the candidate is still appended with a fresh id.  In the run below the
candidate `(3, 4, 6)` is dropped because of the existing shortcut
`(3, 4, 4, id = 5)` (kept untouched), while `(0, 2, 5)` is appended as
id `6` next to the strictly shorter original `0→2 (2)`; exactly one fresh
id is allocated. -/
theorem restructure_c3_discard_only_for_shortcuts :
    (restructure c3State [1] #[false, true, false, false, false, false] c3cands).map
        (fun s => (s.outE, s.nextId)) =
      .ok ([{ id := 0, src := 0, tgt := 2, dist := 2 },
            { id := 6, src := 0, tgt := 2, dist := 5, child1 := 1, child2 := 2, center := 1 },
            { id := 5, src := 3, tgt := 4, dist := 4, child1 := 0, child2 := 1, center := 5 }],
           7) := by
  rfl

end CHC

namespace OffTP

/-- The private `load_block` stops with `false` whenever the pending block
has not been visited before: `insert(...).second` is `true` exactly on a
first insertion. -/
theorem privLoadBlock_first_visit (f : OffFile) (fuel : Nat) (it : GeoIt)
    (hrem : it.remaining = 0) (hvis : ¬ it.nextBlock ∈ it.visited) :
    privLoadBlock f (fuel + 1) it = some (false, refusedIt f it) := by
  rw [privLoadBlock, refusedIt]
  rw [if_neg (by simp [hrem])]
  by_cases hb : f.header.blockCount ≤ it.nextBlock
  · rw [if_pos hb, if_pos hb]
  · rw [if_neg hb, if_neg hb]
    simp only []
    rw [if_pos hvis]

/-- `next()` on an iterator whose pending block was never visited returns
`false`: the inverted guard blocks the first visit of every block chain. -/
theorem itNext_first_visit (f : OffFile) (fuel : Nat) (it : GeoIt)
    (hrem : it.remaining = 0) (hvis : ¬ it.nextBlock ∈ it.visited) :
    itNext f (fuel + 1) it = some (false, refusedIt f it) := by
  rw [itNext, privLoadBlock_first_visit f fuel it hrem hvis]

/-- A `while (it.next())` scan over a never-visited block chain finds no
node at all and leaves the search state unchanged. -/
theorem drainIt_first_visit (f : OffFile) (q : Nat × Nat) (fuel : Nat) (it : GeoIt)
    (st : FindSt) (hrem : it.remaining = 0) (hvis : ¬ it.nextBlock ∈ it.visited) :
    drainIt f q (fuel + 1) it st = some (refusedIt f it, st) := by
  rw [drainIt, itNext_first_visit f fuel it hrem hvis]

/-- C7: `find_node` can never return a node.  The visited-block guard of
`node_geo_iterator::load_block` (`offtp_file.cpp:75`) tests
`insert(m_next_block).second`, which is `true` on the FIRST visit of a
block, so the iterator refuses every block chain on first sight: the
start-cell scan finds nothing, the core fallback finds nothing, and
`find_node` answers the no-node sentinel `UINT32_MAX` for every file and
every query — in particular for a query at the stored coordinates of a
node, where the R2 round trip expects that node's file id. -/
theorem findNode_always_sentinel (f : OffFile) (q : Nat × Nat) (fuel : Nat) :
    findNode f q (fuel + 1) = some u32max := by
  have h1 : ∀ (b : Nat) (st : FindSt),
      drainIt f q (fuel + 1) (itLoadBlock b mkGeoIt) st =
        some (refusedIt f (itLoadBlock b mkGeoIt), st) := by
    intro b st
    exact drainIt_first_visit f q fuel (itLoadBlock b mkGeoIt) st rfl
      (by simp [itLoadBlock, mkGeoIt])
  have h2 : ∀ b : Nat,
      itNext f (fuel + 1) (itLoadBlock b mkGeoIt) =
        some (false, refusedIt f (itLoadBlock b mkGeoIt)) := by
    intro b
    exact itNext_first_visit f fuel (itLoadBlock b mkGeoIt) rfl
      (by simp [itLoadBlock, mkGeoIt])
  rw [findNode, findLoop]
  simp [h1, h2]

end OffTP

namespace CHC

/-- C8: `calcTime` returns exactly
`min(UINT32_MAX, dist * 1300 / speed_eff)` in exact integer arithmetic
(dist is a `uint`, so below `2^32` and the 64-bit product cannot wrap),
where `speed_eff` is the posted speed when positive and otherwise the
road-type default of the specification table. -/
theorem calcTime_exact (dist roadType : Nat) (speed : Int) (h : dist < 2 ^ 32) :
    calcTime dist roadType speed =
      min (2 ^ 32 - 1) (dist * 1300 / speedEffSpec roadType speed) := by
  unfold calcTime speedEffSpec
  have h13 : dist * 1300 < 2 ^ 64 := by
    calc dist * 1300 ≤ (2 ^ 32 - 1) * 1300 := by
          exact Nat.mul_le_mul_right 1300 (by omega)
      _ < 2 ^ 64 := by norm_num
  rw [Nat.mod_eq_of_lt h13]
  by_cases hs : speed ≤ 0
  · rw [if_pos hs, if_neg (by omega)]
    have ht : specSpeedTable roadType = defaultSpeed roadType := rfl
    rw [ht, Nat.min_comm]
  · rw [if_neg hs, if_pos (by omega)]
    rw [Nat.min_comm]

/-- C8 witness: `calcTime 1000 3 (-1) = 18571 = 1000 * 1300 / 70`. -/
theorem calcTime_exact_witness :
    calcTime 1000 3 (-1) = min (2 ^ 32 - 1) (1000 * 1300 / speedEffSpec 3 (-1)) :=
  calcTime_exact 1000 3 (-1) (by norm_num)

/-- C9 counterexample: on the unknown string `"NOT_A_FORMAT"`,
`toFileFormat` does not terminate the process — it prints the diagnostic
and returns `FMI`, the same usable format value that the known string
`"FMI"` yields, refuting both the exit and the never-maps-to-usable
clauses. -/
theorem toFileFormat_unknown_returns_FMI :
    toFileFormat "NOT_A_FORMAT" = (FileFormat.FMI, true) ∧
      (toFileFormat "FMI").1 = FileFormat.FMI := by
  exact ⟨rfl, rfl⟩

/-- C9 amended: for every string other than `"STD"`, `"SIMPLE"`, `"FMI"`
and `"FMI_CH"`, `toFileFormat` writes the `Unknown fileformat!`
diagnostic to `stderr` and returns the fallback `FMI`; the process does
not exit. -/
theorem toFileFormat_unknown_diagnoses_and_falls_back (s : String)
    (h1 : s ≠ "STD") (h2 : s ≠ "SIMPLE") (h3 : s ≠ "FMI") (h4 : s ≠ "FMI_CH") :
    toFileFormat s = (FileFormat.FMI, true) := by
  unfold toFileFormat
  rw [if_neg h1, if_neg h2, if_neg h3, if_neg h4]

/-- C9 witness: the amended statement at the concrete string `"XYZ"`. -/
theorem toFileFormat_unknown_witness :
    toFileFormat "XYZ" = (FileFormat.FMI, true) :=
  toFileFormat_unknown_diagnoses_and_falls_back "XYZ" (by decide) (by decide)
    (by decide) (by decide)

theorem agetD_pos {α : Type} (a : Array α) (i : Nat) (d : α) (h : i < a.size) :
    a.getD i d = a.get ⟨i, h⟩ := dif_pos h

theorem agetD_neg {α : Type} (a : Array α) (i : Nat) (d : α) (h : ¬ i < a.size) :
    a.getD i d = d := dif_neg h

theorem exportScatter_size :
    ∀ (l : List SC) (a r : Array SC), exportScatter l a = .ok r → r.size = a.size := by
  intro l
  induction l with
  | nil =>
    intro a r h
    simp only [exportScatter] at h
    cases h
    rfl
  | cons e t ih =>
    intro a r h
    simp only [exportScatter] at h
    rw [ebind_eq_ok] at h
    obtain ⟨a1, ha1, ht⟩ := h
    rw [asetE_eq_ok] at ha1
    obtain ⟨hlt, hset⟩ := ha1
    rw [ih a1 r ht, ← hset, Array.size_set]

theorem exportScatter_untouched :
    ∀ (l : List SC) (a r : Array SC), exportScatter l a = .ok r →
      ∀ i : Nat, (∀ e ∈ l, e.id ≠ i) → r.getD i {} = a.getD i {} := by
  intro l
  induction l with
  | nil =>
    intro a r h i _
    simp only [exportScatter] at h
    cases h
    rfl
  | cons e t ih =>
    intro a r h i hni
    simp only [exportScatter] at h
    rw [ebind_eq_ok] at h
    obtain ⟨a1, ha1, ht⟩ := h
    rw [asetE_eq_ok] at ha1
    obtain ⟨hlt, hset⟩ := ha1
    have hne : e.id ≠ i := hni e (by simp)
    have h1 : a1.getD i {} = a.getD i {} := by
      rw [← hset]
      by_cases hi : i < a.size
      · rw [agetD_pos _ _ _ hi, agetD_pos _ _ _ (by simpa using hi)]
        simp only [Array.get_eq_getElem]
        exact Array.getElem_set_ne a ⟨e.id, hlt⟩ e (by simpa using hi) hne
      · rw [agetD_neg _ _ _ hi, agetD_neg _ _ _ (by simpa using hi)]
    rw [ih a1 r ht i (fun e2 he2 => hni e2 (by simp [he2]))]
    exact h1

theorem exportScatter_write :
    ∀ (l : List SC) (a r : Array SC), exportScatter l a = .ok r →
      ((l.map (fun e => e.id)).Nodup) → ∀ e ∈ l, r.getD e.id {} = e := by
  intro l
  induction l with
  | nil =>
    intro a r _ _ e he
    cases he
  | cons x t ih =>
    intro a r h hnd e he
    simp only [exportScatter] at h
    rw [ebind_eq_ok] at h
    obtain ⟨a1, ha1, ht⟩ := h
    rw [asetE_eq_ok] at ha1
    obtain ⟨hlt, hset⟩ := ha1
    simp only [List.map_cons, List.nodup_cons] at hnd
    obtain ⟨hxid, hndt⟩ := hnd
    cases he with
    | head =>
      have hunt : r.getD x.id {} = a1.getD x.id {} := by
        refine exportScatter_untouched t a1 r ht x.id ?_
        intro e2 he2 heq
        exact hxid (by rw [← heq]; exact List.mem_map_of_mem _ he2)
      rw [hunt, ← hset, agetD_pos _ _ _ (by simpa using hlt)]
      simp only [Array.get_eq_getElem]
      exact Array.getElem_set_eq a ⟨x.id, hlt⟩ x rfl (by simpa using hlt)
    | tail _ hmem =>
      exact ih a1 r ht hndt e hmem

theorem exportScatter_ok :
    ∀ (l : List SC) (a : Array SC), (∀ e ∈ l, e.id < a.size) →
      ∃ r, exportScatter l a = .ok r := by
  intro l
  induction l with
  | nil =>
    intro a _
    exact ⟨a, rfl⟩
  | cons e t ih =>
    intro a hb
    have hlt : e.id < a.size := hb e (by simp)
    obtain ⟨r, hr⟩ := ih (a.set ⟨e.id, hlt⟩ e)
      (fun e2 he2 => by rw [Array.size_set]; exact hb e2 (by simp [he2]))
    refine ⟨r, ?_⟩
    simp only [exportScatter]
    rw [ebind_eq_ok]
    exact ⟨a.set ⟨e.id, hlt⟩ e, by rw [asetE_eq_ok]; exact ⟨hlt, rfl⟩, hr⟩

/-- C10: `exportData` permutes the complete edge set into id order.
Whenever the source view (the active outgoing index, or `_edges_dump`
when both active views are empty) has dense, duplicate-free ids, the call
succeeds with exactly the accumulated `nodes` and `node_levels` vectors
and an edge list `es` with `es[i].id = i` at every position that is a
permutation of the source (each edge appears exactly once). -/
theorem exportData_dense (s : CHState)
    (hlt : ∀ e ∈ exportSource s, e.id < (exportSource s).length)
    (hnd : ((exportSource s).map (fun e => e.id)).Nodup)
    (hdmp : ¬(s.outE.isEmpty ∧ s.inE.isEmpty) → s.dump = []) :
    ∃ es, exportData s = .ok (s.nodes, s.levels, es) ∧
      es.length = (exportSource s).length ∧
      (∀ i (hi : i < es.length), (es.get ⟨i, hi⟩).id = i) ∧
      es.Perm (exportSource s) := by
  obtain ⟨r, hr⟩ := exportScatter_ok (exportSource s)
    (Array.mkArray (exportSource s).length {})
    (fun e he => by rw [Array.size_mkArray]; exact hlt e he)
  have hsz : r.size = (exportSource s).length := by
    rw [exportScatter_size _ _ _ hr, Array.size_mkArray]
  have hex : exportData s = .ok (s.nodes, s.levels, r.toList) := by
    unfold exportSource at hr
    unfold exportData
    by_cases hc : s.outE.isEmpty ∧ s.inE.isEmpty
    · rw [if_pos hc] at hr
      simp only [if_pos hc, ebind_ok, hr]
    · rw [if_neg hc] at hr
      have hd := hdmp hc
      simp only [if_neg hc, hd, List.isEmpty_nil, checkB, if_pos, ebind_ok, hr]
  -- surjectivity of ids
  have hlen : r.toList.length = (exportSource s).length := by
    simpa using hsz
  have hwrite : ∀ e ∈ exportSource s, r.getD e.id {} = e :=
    exportScatter_write _ _ _ hr hnd
  have hsurj : ∀ i, i < (exportSource s).length → ∃ e ∈ exportSource s, e.id = i := by
    intro i hi
    have hids : ((exportSource s).map (fun e => e.id)).toFinset =
        Finset.range (exportSource s).length := by
      apply Finset.eq_of_subset_of_card_le
      · intro x hx
        rw [List.mem_toFinset, List.mem_map] at hx
        obtain ⟨e, he, heq⟩ := hx
        rw [Finset.mem_range, ← heq]
        exact hlt e he
      · rw [Finset.card_range, List.toFinset_card_of_nodup hnd, List.length_map]
    have : i ∈ ((exportSource s).map (fun e => e.id)).toFinset := by
      rw [hids, Finset.mem_range]
      exact hi
    rw [List.mem_toFinset, List.mem_map] at this
    obtain ⟨e, he, heq⟩ := this
    exact ⟨e, he, heq⟩
  have hget : ∀ i (hi : i < r.toList.length), (r.toList.get ⟨i, hi⟩).id = i := by
    intro i hi
    obtain ⟨e, he, heq⟩ := hsurj i (by rw [← hlen]; exact hi)
    have h1 : r.getD i {} = e := by rw [← heq]; exact hwrite e he
    have h2 : r.toList.get ⟨i, hi⟩ = r.getD i {} := by
      rw [agetD_pos _ _ _ (by simpa using hi)]
      rfl
    rw [h2, h1, heq]
  refine ⟨r.toList, hex, hlen, hget, ?_⟩
  -- both lists are nodup with the same members
  have hndsrc : (exportSource s).Nodup := hnd.of_map
  have hndr : r.toList.Nodup := by
    rw [List.nodup_iff_injective_get]
    intro i j hij
    have := hget i i.2
    have hj := hget j j.2
    apply Fin.ext
    rw [← this, ← hj, hij]
  refine (List.perm_ext_iff_of_nodup hndr hndsrc).mpr ?_
  intro e
  constructor
  · intro hme
    rw [List.mem_iff_get] at hme
    obtain ⟨i, hi⟩ := hme
    obtain ⟨e2, he2, heq⟩ := hsurj i.1 (by rw [← hlen]; exact i.2)
    have h1 : r.getD i.1 {} = e2 := by rw [← heq]; exact hwrite e2 he2
    have h2 : r.toList.get i = r.getD i.1 {} := by
      rw [agetD_pos _ _ _ (by simpa using i.2)]
      rfl
    rw [← hi, h2, h1]
    exact he2
  · intro hme
    have h1 : r.getD e.id {} = e := hwrite e hme
    have hib : e.id < r.size := by rw [hsz]; exact hlt e hme
    rw [agetD_pos _ _ _ hib] at h1
    rw [← h1]
    simp only [Array.get_eq_getElem]
    exact Array.getElem_mem_toList r hib

/-- C10 witness: the theorem applied to the two-edge dump state. -/
theorem exportData_dense_witness :
    ∃ es, exportData c10State = .ok (c10State.nodes, c10State.levels, es) ∧
      es.length = (exportSource c10State).length ∧
      (∀ i (hi : i < es.length), (es.get ⟨i, hi⟩).id = i) ∧
      es.Perm (exportSource c10State) :=
  exportData_dense c10State (by decide) (by decide) (by decide)


theorem assignLevels_ok :
    ∀ (del : List Nat) (lv : Array Nat) (toDel : Array Bool) (lvl : Nat) (L : Array Nat),
      assignLevels lv toDel del lvl = .ok L →
      L.size = lv.size ∧
      (∀ n, n ∈ del → L.getD n 0 = lvl) ∧
      (∀ n, ¬ n ∈ del → L.getD n 0 = lv.getD n 0) := by
  intro del
  induction del with
  | nil =>
    intro lv toDel lvl L h
    simp only [assignLevels] at h
    cases h
    exact ⟨rfl, by simp, fun n _ => rfl⟩
  | cons d rest ih =>
    intro lv toDel lvl L h
    simp only [assignLevels] at h
    rw [ebind_eq_ok] at h
    obtain ⟨l1, hl1, h⟩ := h
    rw [ebind_eq_ok] at h
    obtain ⟨b, hb, h⟩ := h
    rw [ebind_eq_ok] at h
    obtain ⟨u, hu, h⟩ := h
    rw [asetE_eq_ok] at hl1
    obtain ⟨hdlt, hset⟩ := hl1
    obtain ⟨ihsz, ihmem, ihout⟩ := ih l1 toDel lvl L h
    have hszl1 : l1.size = lv.size := by rw [← hset, Array.size_set]
    refine ⟨by rw [ihsz, hszl1], ?_, ?_⟩
    · intro n hn
      rcases List.mem_cons.mp hn with heq | hmem
      · subst heq
        by_cases hr : n ∈ rest
        · exact ihmem n hr
        · rw [ihout n hr, ← hset, agetD_pos _ _ _ (by simpa using hdlt)]
          simp only [Array.get_eq_getElem]
          exact Array.getElem_set_eq lv ⟨n, hdlt⟩ lvl rfl (by simpa using hdlt)
      · exact ihmem n hmem
    · intro n hn
      have hne : d ≠ n := fun hc => hn (by simp [hc])
      have hnr : ¬ n ∈ rest := fun hc => hn (by simp [hc])
      rw [ihout n hnr, ← hset]
      by_cases hi : n < lv.size
      · rw [agetD_pos _ _ _ (by simpa using hi), agetD_pos _ _ _ hi]
        simp only [Array.get_eq_getElem]
        exact Array.getElem_set_ne lv ⟨d, hdlt⟩ lvl (by simpa using hi) hne
      · rw [agetD_neg _ _ _ (by simpa using hi), agetD_neg _ _ _ hi]

theorem restructure_ok_inv (s : CHState) (deleted : List Nat) (toDel : Array Bool)
    (cands : List SC) (s' : CHState)
    (h : restructure s deleted toDel cands = .ok s') :
    assignLevels s.levels toDel deleted s.nextLvl = .ok s'.levels ∧
    s'.nodes = s.nodes ∧
    s'.nextLvl = s.nextLvl + 1 ∧
    isSortedB outEdgeSortB s'.outE = true ∧
    s'.inE = List.insertionSort inKeyLe s'.outE ∧
    initOffsets s.nodes.length s'.outE s'.inE = .ok (s'.outOff, s'.inOff) := by
  obtain ⟨nodes, levels, outE, inE, oo, io, dump, nid, nlvl⟩ := s
  simp only [restructure] at h
  rw [ebind_eq_ok] at h
  obtain ⟨lvls, hlv, h⟩ := h
  rw [ebind_eq_ok] at h
  obtain ⟨outA, houtA, h⟩ := h
  rw [ebind_eq_ok] at h
  obtain ⟨u1, hc1, h⟩ := h
  rw [ebind_eq_ok] at h
  obtain ⟨u2, hc2, h⟩ := h
  rw [ebind_eq_ok] at h
  obtain ⟨u3, hc3, h⟩ := h
  rw [ebind_eq_ok] at h
  obtain ⟨m, hm, h⟩ := h
  obtain ⟨mOut, mDump, mf, miw, mir, mNid⟩ := m
  dsimp only at h
  rw [ebind_eq_ok] at h
  obtain ⟨u4, hc4, h⟩ := h
  rw [ebind_eq_ok] at h
  obtain ⟨off, hoff, h⟩ := h
  rw [checkB_eq_ok] at hc4
  cases h
  refine ⟨hlv, rfl, rfl, hc4, rfl, ?_⟩
  simpa using hoff

theorem countP_lt_succ (k : SC → Nat) (l : List SC) (i : Nat) :
    l.countP (fun e => decide (k e < i + 1)) =
      l.countP (fun e => decide (k e < i)) + l.countP (fun e => decide (k e = i)) := by
  induction l with
  | nil => simp
  | cons e t ih =>
    simp only [List.countP_cons, ih]
    by_cases h1 : k e < i + 1 <;> by_cases h2 : k e < i <;> by_cases h3 : k e = i <;>
      simp [h1, h2, h3] <;> omega

theorem countP_lt_zero (k : SC → Nat) (l : List SC) :
    l.countP (fun e => decide (k e < 0)) = 0 := by
  simp

theorem countKeys_ok :
    ∀ (l : List SC) (k : SC → Nat) (a c : Array Nat),
      countKeys k l a = .ok c →
      c.size = a.size ∧ (∀ e ∈ l, k e < a.size) ∧
      (∀ j, c.getD j 0 = a.getD j 0 + l.countP (fun e => decide (k e = j))) := by
  intro l
  induction l with
  | nil =>
    intro k a c h
    simp only [countKeys] at h
    cases h
    exact ⟨rfl, by simp, fun j => by simp⟩
  | cons e t ih =>
    intro k a c h
    simp only [countKeys, bumpAt] at h
    rw [ebind_eq_ok] at h
    obtain ⟨a1, ha1, h⟩ := h
    rw [ebind_eq_ok] at ha1
    obtain ⟨v, hv, ha1⟩ := ha1
    rw [aget_eq_ok] at hv
    obtain ⟨hklt, hvget⟩ := hv
    rw [asetE_eq_ok] at ha1
    obtain ⟨hklt2, hset⟩ := ha1
    obtain ⟨ihsz, ihbound, ihcnt⟩ := ih k a1 c h
    have hsz1 : a1.size = a.size := by rw [← hset, Array.size_set]
    refine ⟨by rw [ihsz, hsz1], ?_, ?_⟩
    · intro e2 he2
      rcases List.mem_cons.mp he2 with heq | hmem
      · rw [heq]; exact hklt
      · have := ihbound e2 hmem
        rwa [hsz1] at this
    · intro j
      rw [ihcnt j, List.countP_cons]
      by_cases hj : k e = j
      · have ha1j : a1.getD j 0 = a.getD j 0 + 1 := by
          rw [← hset, ← hj, agetD_pos _ _ _ (by simpa using hklt)]
          simp only [Array.get_eq_getElem]
          rw [Array.getElem_set_eq a ⟨k e, hklt⟩ (v + 1) rfl (by simpa using hklt)]
          rw [agetD_pos _ _ _ hklt, ← hvget]
        simp [hj, ha1j]
        omega
      · have ha1j : a1.getD j 0 = a.getD j 0 := by
          rw [← hset]
          by_cases hjs : j < a.size
          · rw [agetD_pos _ _ _ (by simpa using hjs), agetD_pos _ _ _ hjs]
            simp only [Array.get_eq_getElem]
            exact Array.getElem_set_ne a ⟨k e, hklt⟩ (v + 1) (by simpa using hjs) hj
          · rw [agetD_neg _ _ _ (by simpa using hjs), agetD_neg _ _ _ hjs]
        simp [hj, ha1j]

theorem offsetScan_inv (l : List SC) (k : SC → Nat) (n : Nat) :
    ∀ (fuel : Nat) (c : Array Nat) (i acc : Nat) (o : Array Nat) (sum : Nat),
      offsetScan c i n acc fuel = .ok (o, sum) →
      i ≤ n →
      (∀ j, i ≤ j → j < n → c.getD j 0 = l.countP (fun e => decide (k e = j))) →
      acc = l.countP (fun e => decide (k e < i)) →
      o.size = c.size ∧
      sum = l.countP (fun e => decide (k e < n)) ∧
      (∀ m, m < i → o.getD m 0 = c.getD m 0) ∧
      (∀ m, i ≤ m → m < n → o.getD m 0 = l.countP (fun e => decide (k e < m))) ∧
      (∀ m, n ≤ m → o.getD m 0 = c.getD m 0) := by
  intro fuel
  induction fuel with
  | zero =>
    intro c i acc o sum h
    simp [offsetScan] at h
  | succ fuel ih =>
    intro c i acc o sum h hin hcnt hacc
    rw [offsetScan] at h
    by_cases hlt : i < n
    · rw [if_pos hlt] at h
      rw [ebind_eq_ok] at h
      obtain ⟨v, hv, h⟩ := h
      rw [ebind_eq_ok] at h
      obtain ⟨c1, hc1, h⟩ := h
      rw [aget_eq_ok] at hv
      obtain ⟨his, hvget⟩ := hv
      rw [asetE_eq_ok] at hc1
      obtain ⟨his2, hset⟩ := hc1
      have hsz1 : c1.size = c.size := by rw [← hset, Array.size_set]
      have hc1get : ∀ j, j ≠ i → c1.getD j 0 = c.getD j 0 := by
        intro j hj
        rw [← hset]
        by_cases hjs : j < c.size
        · rw [agetD_pos _ _ _ (by simpa using hjs), agetD_pos _ _ _ hjs]
          simp only [Array.get_eq_getElem]
          exact Array.getElem_set_ne c ⟨i, his⟩ acc (by simpa using hjs) (fun hc => hj hc.symm)
        · rw [agetD_neg _ _ _ (by simpa using hjs), agetD_neg _ _ _ hjs]
      have hc1i : c1.getD i 0 = acc := by
        rw [← hset, agetD_pos _ _ _ (by simpa using his)]
        simp only [Array.get_eq_getElem]
        exact Array.getElem_set_eq c ⟨i, his⟩ acc rfl (by simpa using his)
      have hvi : v = l.countP (fun e => decide (k e = i)) := by
        rw [← hcnt i (Nat.le_refl i) hlt, agetD_pos _ _ _ his, hvget]
      obtain ⟨ihsz, ihsum, ihlo, ihmid, ihhi⟩ := ih c1 (i + 1) (acc + v) o sum h
        (by omega)
        (fun j hj1 hj2 => by rw [hc1get j (by omega)]; exact hcnt j (by omega) hj2)
        (by rw [hacc, hvi, countP_lt_succ k l i])
      refine ⟨by rw [ihsz, hsz1], ihsum, ?_, ?_, ?_⟩
      · intro m hm
        rw [ihlo m (by omega), hc1get m (by omega)]
      · intro m hm1 hm2
        by_cases hmi : m = i
        · subst hmi
          rw [ihlo m (by omega), hc1i, hacc]
        · exact ihmid m (by omega) hm2
      · intro m hm
        rw [ihhi m hm, hc1get m (by omega)]
    · rw [if_neg hlt] at h
      cases h
      have hieq : i = n := by omega
      subst hieq
      exact ⟨rfl, by rw [hacc], fun m _ => rfl, fun m hm1 hm2 => by omega, fun m _ => rfl⟩

theorem mkArrayNat_getD (n : Nat) (j : Nat) : (Array.mkArray n (0 : Nat)).getD j 0 = 0 := by
  by_cases hj : j < n
  · rw [agetD_pos _ _ _ (by simpa using hj)]
    simp only [Array.get_eq_getElem]
    exact Array.getElem_mkArray n 0 (by simpa using hj)
  · rw [agetD_neg _ _ _ (by simpa using hj)]

theorem initOffsets_ok (nN : Nat) (outL inL : List SC) (oo io : Array Nat)
    (h : initOffsets nN outL inL = .ok (oo, io)) :
    oo.size = nN + 1 ∧ io.size = nN + 1 ∧
    (∀ m, m ≤ nN → oo.getD m 0 = outL.countP (fun e => decide (e.src < m))) ∧
    (∀ m, m ≤ nN → io.getD m 0 = outL.countP (fun e => decide (e.tgt < m))) ∧
    outL.countP (fun e => decide (e.src < nN)) = outL.length ∧
    outL.countP (fun e => decide (e.tgt < nN)) = inL.length := by
  unfold initOffsets at h
  rw [ebind_eq_ok] at h
  obtain ⟨oc, hoc, h⟩ := h
  rw [ebind_eq_ok] at h
  obtain ⟨ic, hic, h⟩ := h
  rw [ebind_eq_ok] at h
  obtain ⟨opr, hopr, h⟩ := h
  rw [ebind_eq_ok] at h
  obtain ⟨ipr, hipr, h⟩ := h
  rw [ebind_eq_ok] at h
  obtain ⟨u1, hu1, h⟩ := h
  rw [ebind_eq_ok] at h
  obtain ⟨u2, hu2, h⟩ := h
  rw [ebind_eq_ok] at h
  obtain ⟨oo1, hoo1, h⟩ := h
  rw [ebind_eq_ok] at h
  obtain ⟨io1, hio1, h⟩ := h
  cases h
  rw [checkB_eq_ok] at hu1 hu2
  simp only [decide_eq_true_eq] at hu1 hu2
  obtain ⟨hocsz, hocb, hoccnt0⟩ := countKeys_ok outL (fun e => e.src) _ oc hoc
  obtain ⟨hicsz, hicb, hiccnt0⟩ := countKeys_ok outL (fun e => e.tgt) _ ic hic
  rw [Array.size_mkArray] at hocsz hocb hicsz hicb
  have hoccnt : ∀ j, oc.getD j 0 =
      (Array.mkArray (nN + 1) 0).getD j 0 + outL.countP (fun e => decide (e.src = j)) :=
    hoccnt0
  have hiccnt : ∀ j, ic.getD j 0 =
      (Array.mkArray (nN + 1) 0).getD j 0 + outL.countP (fun e => decide (e.tgt = j)) :=
    hiccnt0
  obtain ⟨hoprsz, hoprsum0, _, hoprmid0, hoprhi⟩ := offsetScan_inv outL (fun e => e.src) nN
    (nN + 1) oc 0 0 opr.1 opr.2 (by rw [← hopr]) (by omega)
    (fun j _ hj => by rw [hoccnt j, mkArrayNat_getD]; simp)
    (by simp)
  obtain ⟨hiprsz, hiprsum0, _, hiprmid0, hiprhi⟩ := offsetScan_inv outL (fun e => e.tgt) nN
    (nN + 1) ic 0 0 ipr.1 ipr.2 (by rw [← hipr]) (by omega)
    (fun j _ hj => by rw [hiccnt j, mkArrayNat_getD]; simp)
    (by simp)
  have hoprsum : opr.2 = outL.countP (fun e => decide (e.src < nN)) := hoprsum0
  have hiprsum : ipr.2 = outL.countP (fun e => decide (e.tgt < nN)) := hiprsum0
  have hoprmid : ∀ m, 0 ≤ m → m < nN →
      opr.1.getD m 0 = outL.countP (fun e => decide (e.src < m)) := hoprmid0
  have hiprmid : ∀ m, 0 ≤ m → m < nN →
      ipr.1.getD m 0 = outL.countP (fun e => decide (e.tgt < m)) := hiprmid0
  rw [asetE_eq_ok] at hoo1 hio1
  obtain ⟨hnlt1, hset1⟩ := hoo1
  obtain ⟨hnlt2, hset2⟩ := hio1
  have hoosz : oo.size = nN + 1 := by
    rw [← hset1, Array.size_set, hoprsz, hocsz]
  have hiosz : io.size = nN + 1 := by
    rw [← hset2, Array.size_set, hiprsz, hicsz]
  refine ⟨hoosz, hiosz, ?_, ?_, by rw [← hoprsum]; exact hu1, by rw [← hiprsum]; exact hu2⟩
  · intro m hm
    by_cases hmn : m = nN
    · subst hmn
      rw [← hset1, agetD_pos _ _ _ (by simpa using hnlt1)]
      simp only [Array.get_eq_getElem]
      rw [Array.getElem_set_eq opr.1 ⟨m, hnlt1⟩ opr.2 rfl (by simpa using hnlt1)]
      rw [hoprsum]
    · have hmlt : m < nN := by omega
      rw [← hset1]
      have hms : m < opr.1.size := by omega
      rw [agetD_pos _ _ _ (by simpa using hms)]
      simp only [Array.get_eq_getElem]
      rw [Array.getElem_set_ne opr.1 ⟨nN, hnlt1⟩ opr.2 (by simpa using hms)
        (by show nN ≠ m; omega)]
      have h2 := hoprmid m (by omega) hmlt
      rw [agetD_pos _ _ _ hms] at h2
      simpa using h2
  · intro m hm
    by_cases hmn : m = nN
    · subst hmn
      rw [← hset2, agetD_pos _ _ _ (by simpa using hnlt2)]
      simp only [Array.get_eq_getElem]
      rw [Array.getElem_set_eq ipr.1 ⟨m, hnlt2⟩ ipr.2 rfl (by simpa using hnlt2)]
      rw [hiprsum]
    · have hmlt : m < nN := by omega
      rw [← hset2]
      have hms : m < ipr.1.size := by omega
      rw [agetD_pos _ _ _ (by simpa using hms)]
      simp only [Array.get_eq_getElem]
      rw [Array.getElem_set_ne ipr.1 ⟨nN, hnlt2⟩ ipr.2 (by simpa using hms)
        (by show nN ≠ m; omega)]
      have h2 := hiprmid m (by omega) hmlt
      rw [agetD_pos _ _ _ hms] at h2
      simpa using h2

theorem pairwise_of_isSortedB (cmp : SC → SC → Bool) (le : SC → SC → Prop)
    (hconv : ∀ a b, cmp b a = false → le a b)
    (htr : ∀ a b c, le a b → le b c → le a c) :
    ∀ l, isSortedB cmp l = true → l.Pairwise le := by
  intro l
  induction l with
  | nil => intro _; exact List.Pairwise.nil
  | cons a t ih =>
    intro h
    cases t with
    | nil => simp
    | cons b t2 =>
      rw [isSortedB] at h
      simp only [Bool.and_eq_true, Bool.not_eq_true'] at h
      have hp := ih h.2
      refine List.Pairwise.cons ?_ hp
      intro c hc
      rcases List.mem_cons.mp hc with heq | hc2
      · subst heq
        exact hconv a c h.1
      · exact htr a b c (hconv a b h.1) (List.rel_of_pairwise_cons hp hc2)

theorem outKeyLe_of_cmp_false (a b : SC) (h : outEdgeSortB b a = false) : outKeyLe a b := by
  unfold outEdgeSortB at h
  unfold outKeyLe
  simp only [Bool.or_eq_false_iff, Bool.and_eq_false_iff, decide_eq_false_iff_not] at h
  rcases h with ⟨h1, h2 | h2⟩ <;> omega

theorem outKeyLe_trans (a b c : SC) (h1 : outKeyLe a b) (h2 : outKeyLe b c) : outKeyLe a c := by
  unfold outKeyLe at *
  omega

theorem sorted_key_decompose (k : SC → Nat) (n : Nat) :
    ∀ l : List SC, l.Pairwise (fun a b => k a ≤ k b) →
      l = l.filter (fun e => decide (k e < n)) ++
          (l.filter (fun e => decide (k e = n)) ++ l.filter (fun e => decide (n < k e))) := by
  intro l
  induction l with
  | nil => simp
  | cons e t ih =>
    intro hp
    rw [List.pairwise_cons] at hp
    obtain ⟨he, hpt⟩ := hp
    have ihh := ih hpt
    rcases Nat.lt_trichotomy (k e) n with h1 | h1 | h1
    · have h2 : ¬ k e = n := by omega
      have h3 : ¬ n < k e := by omega
      rw [List.filter_cons, List.filter_cons, List.filter_cons]
      rw [if_pos (by simpa using h1), if_neg (by simpa using h2), if_neg (by simpa using h3)]
      rw [List.cons_append]
      exact congrArg (List.cons e) ihh
    · have h2 : ¬ k e < n := by omega
      have h3 : ¬ n < k e := by omega
      have htlt : t.filter (fun e => decide (k e < n)) = [] :=
        List.filter_eq_nil_iff.mpr (fun b hb => by
          simp only [decide_eq_true_eq]
          have := he b hb
          omega)
      rw [htlt] at ihh
      simp only [List.nil_append] at ihh
      rw [List.filter_cons, List.filter_cons, List.filter_cons]
      rw [if_neg (by simpa using h2), if_pos (by simpa using h1), if_neg (by simpa using h3),
        htlt]
      simp only [List.nil_append, List.cons_append]
      exact congrArg (List.cons e) ihh
    · have h2 : ¬ k e < n := by omega
      have h3 : ¬ k e = n := by omega
      have htlt : t.filter (fun e => decide (k e < n)) = [] :=
        List.filter_eq_nil_iff.mpr (fun b hb => by
          simp only [decide_eq_true_eq]
          have := he b hb
          omega)
      have hteq : t.filter (fun e => decide (k e = n)) = [] :=
        List.filter_eq_nil_iff.mpr (fun b hb => by
          simp only [decide_eq_true_eq]
          have := he b hb
          omega)
      rw [htlt, hteq] at ihh
      simp only [List.nil_append] at ihh
      rw [List.filter_cons, List.filter_cons, List.filter_cons]
      rw [if_neg (by simpa using h2), if_neg (by simpa using h3), if_pos (by simpa using h1),
        htlt, hteq]
      simp only [List.nil_append]
      exact congrArg (List.cons e) ihh

theorem sorted_filter_slice (k : SC → Nat) (n : Nat) (l : List SC)
    (hp : l.Pairwise (fun a b => k a ≤ k b)) :
    (l.drop (l.countP (fun e => decide (k e < n)))).take
        (l.countP (fun e => decide (k e = n))) =
      l.filter (fun e => decide (k e = n)) := by
  rw [List.countP_eq_length_filter, List.countP_eq_length_filter]
  set A := l.filter (fun e => decide (k e < n)) with hA
  set B := l.filter (fun e => decide (k e = n)) with hB
  conv_lhs => rw [sorted_key_decompose k n l hp]
  rw [← hA, ← hB]
  rw [List.drop_left, List.take_left]

/-- C5: every successful `restructure` leaves the graph consistent: the
outgoing view is sorted by `(src, tgt)` and the incoming view by
`(tgt, src)`; the final entry of each offset array equals the view
length; and for every node `n`, `nodeEdges` yields exactly the active
edges whose corresponding endpoint is `n`, whose count is the offset
difference `offsets[n+1] - offsets[n]`.  (In debug builds the sortedness
of the merged view is enforced by the `debug_assert` at `chgraph.h:271`,
embedded here as a check; the incoming view and the offsets are then
rebuilt by `sortInEdges`/`initOffsets` exactly as in `graph.h`.) -/
theorem restructure_index_invariants (s : CHState) (deleted : List Nat) (toDel : Array Bool)
    (cands : List SC) (s' : CHState)
    (hok : restructure s deleted toDel cands = .ok s') :
    s'.outE.Pairwise outKeyLe ∧
    s'.inE.Pairwise inKeyLe ∧
    s'.outOff.getD s'.nodes.length 0 = s'.outE.length ∧
    s'.inOff.getD s'.nodes.length 0 = s'.inE.length ∧
    ∀ n, n < s'.nodes.length →
      nodeEdges s' n EdgeType.OUT = s'.outE.filter (fun e => decide (e.src = n)) ∧
      nodeEdges s' n EdgeType.IN = s'.inE.filter (fun e => decide (e.tgt = n)) ∧
      (nodeEdges s' n EdgeType.OUT).length =
        s'.outOff.getD (n + 1) 0 - s'.outOff.getD n 0 ∧
      (nodeEdges s' n EdgeType.IN).length =
        s'.inOff.getD (n + 1) 0 - s'.inOff.getD n 0 := by
  obtain ⟨hlv, hnodes, hnlvl, hsort, hinE, hoff⟩ :=
    restructure_ok_inv s deleted toDel cands s' hok
  have hnn : s'.nodes.length = s.nodes.length := by rw [hnodes]
  obtain ⟨hoosz, hiosz, hoo, hio, hsrclen, htgtlen⟩ :=
    initOffsets_ok s.nodes.length s'.outE s'.inE s'.outOff s'.inOff hoff
  have hPout : s'.outE.Pairwise outKeyLe :=
    pairwise_of_isSortedB outEdgeSortB outKeyLe outKeyLe_of_cmp_false outKeyLe_trans
      s'.outE hsort
  have hPin : s'.inE.Pairwise inKeyLe := by
    rw [hinE]
    exact List.sorted_insertionSort inKeyLe s'.outE
  have hperm : List.Perm s'.inE s'.outE := by
    rw [hinE]
    exact List.perm_insertionSort inKeyLe s'.outE
  have hcnt : ∀ p : SC → Bool, s'.inE.countP p = s'.outE.countP p :=
    fun p => List.Perm.countP_congr hperm (fun x _ => rfl)
  have hinlen : s'.inE.length = s'.outE.length := hperm.length_eq
  have hPoutSrc : s'.outE.Pairwise (fun a b => a.src ≤ b.src) :=
    hPout.imp (fun h => by unfold outKeyLe at h; omega)
  have hPinTgt : s'.inE.Pairwise (fun a b => a.tgt ≤ b.tgt) :=
    hPin.imp (fun h => by unfold inKeyLe at h; omega)
  refine ⟨hPout, hPin, ?_, ?_, ?_⟩
  · rw [hnn, hoo s.nodes.length (Nat.le_refl _), hsrclen]
  · rw [hnn, hio s.nodes.length (Nat.le_refl _), htgtlen]
  · intro n hn
    rw [hnn] at hn
    have hioN : ∀ m, m ≤ s.nodes.length →
        s'.inOff.getD m 0 = s'.inE.countP (fun e => decide (e.tgt < m)) := by
      intro m hm
      rw [hio m hm]
      exact (hcnt (fun e => decide (e.tgt < m))).symm
    have hsliceOut :
        (s'.outE.drop (s'.outE.countP (fun e => decide (e.src < n)))).take
            (s'.outE.countP (fun e => decide (e.src = n))) =
          s'.outE.filter (fun e => decide (e.src = n)) :=
      sorted_filter_slice (fun e => e.src) n s'.outE hPoutSrc
    have hsliceIn :
        (s'.inE.drop (s'.inE.countP (fun e => decide (e.tgt < n)))).take
            (s'.inE.countP (fun e => decide (e.tgt = n))) =
          s'.inE.filter (fun e => decide (e.tgt = n)) :=
      sorted_filter_slice (fun e => e.tgt) n s'.inE hPinTgt
    have hsplitOut : s'.outE.countP (fun e => decide (e.src < n + 1)) =
        s'.outE.countP (fun e => decide (e.src < n)) +
          s'.outE.countP (fun e => decide (e.src = n)) :=
      countP_lt_succ (fun e => e.src) s'.outE n
    have hsplitIn : s'.inE.countP (fun e => decide (e.tgt < n + 1)) =
        s'.inE.countP (fun e => decide (e.tgt < n)) +
          s'.inE.countP (fun e => decide (e.tgt = n)) :=
      countP_lt_succ (fun e => e.tgt) s'.inE n
    have hdOut : s'.outOff.getD (n + 1) 0 - s'.outOff.getD n 0 =
        s'.outE.countP (fun e => decide (e.src = n)) := by
      rw [hoo (n + 1) (by omega), hoo n (by omega)]
      rw [hsplitOut]
      omega
    have hdIn : s'.inOff.getD (n + 1) 0 - s'.inOff.getD n 0 =
        s'.inE.countP (fun e => decide (e.tgt = n)) := by
      rw [hioN (n + 1) (by omega), hioN n (by omega)]
      rw [hsplitIn]
      omega
    have hEqOut : nodeEdges s' n EdgeType.OUT =
        s'.outE.filter (fun e => decide (e.src = n)) := by
      show (s'.outE.drop (s'.outOff.getD n 0)).take
          (s'.outOff.getD (n + 1) 0 - s'.outOff.getD n 0) = _
      rw [hdOut, hoo n (by omega)]
      exact hsliceOut
    have hEqIn : nodeEdges s' n EdgeType.IN =
        s'.inE.filter (fun e => decide (e.tgt = n)) := by
      show (s'.inE.drop (s'.inOff.getD n 0)).take
          (s'.inOff.getD (n + 1) 0 - s'.inOff.getD n 0) = _
      rw [hdIn, hioN n (by omega)]
      exact hsliceIn
    refine ⟨hEqOut, hEqIn, ?_, ?_⟩
    · rw [hEqOut, hdOut, List.countP_eq_length_filter]
    · rw [hEqIn, hdIn, List.countP_eq_length_filter]

/-- C5 witness: the offset/length clause of the theorem at a concrete
round on the two-node graph. -/
theorem restructure_index_invariants_witness :
    w6Post.outOff.getD w6Post.nodes.length 0 = w6Post.outE.length :=
  (restructure_index_invariants w6State [1] #[false, true] [] w6Post rfl).2.2.1

theorem restructure_levels (s : CHState) (deleted : List Nat) (toDel : Array Bool)
    (cands : List SC) (s' : CHState)
    (hok : restructure s deleted toDel cands = .ok s') :
    s'.nextLvl = s.nextLvl + 1 ∧
    s'.levels.size = s.levels.size ∧
    (∀ n, n ∈ deleted → s'.levels.getD n 0 = s.nextLvl) ∧
    (∀ n, ¬ n ∈ deleted → s'.levels.getD n 0 = s.levels.getD n 0) := by
  obtain ⟨hlv, _, hnl, _, _, _⟩ := restructure_ok_inv s deleted toDel cands s' hok
  obtain ⟨hsz, hmem, hout⟩ := assignLevels_ok deleted s.levels toDel s.nextLvl s'.levels hlv
  exact ⟨hnl, hsz, hmem, hout⟩

theorem runRounds_nextLvl :
    ∀ (rs : List Round) (st0 stF : CHState),
      runRounds st0 rs = .ok stF → stF.nextLvl = st0.nextLvl + rs.length := by
  intro rs
  induction rs with
  | nil =>
    intro st0 stF h
    simp only [runRounds] at h
    cases h
    simp
  | cons r rest ih =>
    intro st0 stF h
    simp only [runRounds] at h
    rw [ebind_eq_ok] at h
    obtain ⟨st1, h1, h2⟩ := h
    have e1 := (restructure_levels st0 r.deleted r.toDel r.cands st1 h1).1
    rw [ih st1 stF h2, e1, List.length_cons]
    omega

theorem runRounds_untouched :
    ∀ (rs : List Round) (st0 stF : CHState),
      runRounds st0 rs = .ok stF → ∀ n, (∀ r ∈ rs, ¬ n ∈ r.deleted) →
        stF.levels.getD n 0 = st0.levels.getD n 0 := by
  intro rs
  induction rs with
  | nil =>
    intro st0 stF h n _
    simp only [runRounds] at h
    cases h
    rfl
  | cons r rest ih =>
    intro st0 stF h n hn
    simp only [runRounds] at h
    rw [ebind_eq_ok] at h
    obtain ⟨st1, h1, h2⟩ := h
    rw [ih st1 stF h2 n (fun r2 hr2 => hn r2 (by simp [hr2]))]
    exact (restructure_levels st0 r.deleted r.toDel r.cands st1 h1).2.2.2 n
      (hn r (by simp))

theorem runRounds_level_at :
    ∀ (rs : List Round) (st0 stF : CHState),
      runRounds st0 rs = .ok stF →
      rs.Pairwise (fun r1 r2 => ∀ n, n ∈ r1.deleted → ¬ n ∈ r2.deleted) →
      ∀ i (hi : i < rs.length) n, n ∈ (rs.get ⟨i, hi⟩).deleted →
        stF.levels.getD n 0 = st0.nextLvl + i := by
  intro rs
  induction rs with
  | nil =>
    intro st0 stF _ _ i hi
    simp at hi
  | cons r rest ih =>
    intro st0 stF h hp i hi n hn
    simp only [runRounds] at h
    rw [ebind_eq_ok] at h
    obtain ⟨st1, h1, h2⟩ := h
    rw [List.pairwise_cons] at hp
    obtain ⟨hhead, hrest⟩ := hp
    cases i with
    | zero =>
      have hn' : n ∈ r.deleted := by simpa using hn
      have hl1 : st1.levels.getD n 0 = st0.nextLvl :=
        (restructure_levels st0 r.deleted r.toDel r.cands st1 h1).2.2.1 n hn'
      have hu : stF.levels.getD n 0 = st1.levels.getD n 0 :=
        runRounds_untouched rest st1 stF h2 n (fun r2 hr2 => hhead r2 hr2 n hn')
      rw [hu, hl1]
      omega
    | succ i =>
      have hi' : i < rest.length := by simpa using hi
      have hn' : n ∈ (rest.get ⟨i, hi'⟩).deleted := by simpa using hn
      rw [ih st1 stF h2 hrest i hi' n hn',
        (restructure_levels st0 r.deleted r.toDel r.cands st1 h1).1]
      omega

/-- C6: levels are assigned once and monotonically.  Over any successful
sequence of rounds whose deleted sets are pairwise disjoint (no node is
contracted twice), starting from `_next_lvl = 0`: `_next_lvl` ends at the
number of rounds (it grows by exactly one per `restructure` call), every
node deleted in round `i` holds level `i` — the `next_level` current at
its round — and a node contracted in an earlier round has a strictly
smaller level than one contracted later. -/
theorem runRounds_monotone_levels (st0 : CHState) (rs : List Round) (stF : CHState)
    (hok : runRounds st0 rs = .ok stF)
    (h0 : st0.nextLvl = 0)
    (hdisj : rs.Pairwise (fun r1 r2 => ∀ n, n ∈ r1.deleted → ¬ n ∈ r2.deleted)) :
    stF.nextLvl = rs.length ∧
    (∀ i (hi : i < rs.length) n, n ∈ (rs.get ⟨i, hi⟩).deleted →
      stF.levels.getD n 0 = i) ∧
    (∀ i j (hi : i < rs.length) (hj : j < rs.length) n1 n2, i < j →
      n1 ∈ (rs.get ⟨i, hi⟩).deleted → n2 ∈ (rs.get ⟨j, hj⟩).deleted →
      stF.levels.getD n1 0 < stF.levels.getD n2 0) := by
  have hA := runRounds_nextLvl rs st0 stF hok
  have hB := runRounds_level_at rs st0 stF hok hdisj
  refine ⟨by omega, fun i hi n hn => by rw [hB i hi n hn]; omega, ?_⟩
  intro i j hi hj n1 n2 hij h1 h2
  rw [hB i hi n1 h1, hB j hj n2 h2]
  omega

/-- C6 witness: two rounds contracting `{1}` then `{0}` on the two-node
graph end with `_next_lvl = 2`. -/
theorem runRounds_monotone_levels_witness : w6Final.nextLvl = w6Rounds.length :=
  (runRounds_monotone_levels w6State w6Rounds w6Final rfl rfl (by decide)).1

end CHC
